import Mathlib

/-!
Shallow embedding of the asset data layer of the RTX-Remix renderer
(`rtx_asset_data_manager.cpp`): the DDS container parser (`DdsFileParser`),
the three `AssetData` variants (`DdsTextureData`, `GliTextureData`,
`PackagedAssetData`) and the `AssetDataManager` search-path registry and
`findAsset` resolution.

Modelling conventions:
* C++ strings (paths, filenames) are `List Char`; `tolower` is ASCII
  `Char.toLower`, matching the C locale behaviour on the path characters
  the code manipulates.
* Machine integers are `Nat`.  The one place where unsigned wrap-around can
  change control flow on adversarial inputs — `numMips - numTailMips` in
  `PackagedAssetData::getBlobIndex`, whose operands are unsigned — is
  modelled with an explicit `% 2 ^ 32`.  The remaining arithmetic
  (file sizes from `ftell`, level sizes of at most 16 mips, blob indices)
  stays far below its 64-bit bounds for any input the guards admit, and is
  modelled exactly, except for the documented `% 2 ^ 32` in the per-level
  block-count product, which is a genuine `uint32_t` multiplication.
* OS interaction (fopen success, directory contents, package contents,
  gli decoding) is abstracted into boolean/function-valued environment
  fields; the control flow around those calls is translated verbatim.
* `assert` is modelled as aborting (its debug semantics, and the spec's
  reading of the mip-capacity guard), as a distinct outcome.
-/

/- ===================== §1 Characters and path strings ===================== -/

/-- C++ `std::string` contents, modelled as a list of characters. -/
abbrev Str := List Char

/-- `std::for_each(s.begin(), s.end(), [](char& c){ c = tolower(c); })`. -/
def toLowerStr (s : Str) : Str := s.map Char.toLower

/-- Lexicographic `operator<` of `std::string` (byte-wise, here char-wise). -/
def strLtB : Str → Str → Bool
  | [], [] => false
  | [], _ :: _ => true
  | _ :: _, [] => false
  | a :: as, b :: bs => if a < b then true else if b < a then false else strLtB as bs

/-- `strrchr(s, '.')`: the suffix of `s` starting at its last dot, if any. -/
def lastDotSuffix : Str → Option Str
  | [] => none
  | c :: rest =>
    match lastDotSuffix rest with
    | some s => some s
    | none => if c = '.' then some (c :: rest) else none

/-- `_stricmp(a, b) == 0`: ASCII case-insensitive string equality. -/
def ciEqStr (a b : Str) : Bool := toLowerStr a == toLowerStr b

/-- `std::string::substr(pos)`: defined for `pos <= size()`, throws
`std::out_of_range` (here: `none`) for larger `pos`. -/
def substrFrom (s : Str) (pos : Nat) : Option Str :=
  if pos ≤ s.length then some (s.drop pos) else none

/- ===================== §2 DdsFileParser ===================== -/

/-- `sizeof(FOURCC_DDS)`: gli declares `char const FOURCC_DDS[] = "DDS "`-style
four-character array. -/
def sizeofMagic : Nat := 4

/-- `sizeof(gli::detail::dds_header)`. -/
def sizeofHeader : Nat := 124

/-- `sizeof(gli::detail::dds_header10)`. -/
def sizeofHeader10 : Nat := 20

/-- `m_levelSizes.size()` for `std::array<size_t, 16> m_levelSizes`. -/
def ddsLevelSizesCapacity : Nat := 16

/-- The observations `DdsFileParser::parse` makes of one on-disk DDS file:
the outcome of `fopen`, the file size, and the header fields the code reads.
`arraySize10` is the extended header's `ArraySize`; when the extended header
is absent the code keeps `dds_header10`'s default-constructed `ArraySize`
of `1` (see `ddsLayersOf`).  `cubemapFaceBitCount` is
`glm::bitCount(header.CubemapFlags & DDSCAPS2_CUBEMAP_ALLFACES)`. -/
structure DdsHeaderInput where
  openOk : Bool := true
  fileSize : Nat
  magicOk : Bool := true
  fmtFlagsFourCC : Bool := false
  fourCCIsDX10orGLI1 : Bool := false
  flagsMipMapCount : Bool := false
  mipMapLevels : Nat := 1
  arraySize10 : Nat := 1
  cubemapFlagSet : Bool := false
  cubemapFaceBitCount : Nat := 0
  volumeFlagSet : Bool := false
  width : Nat := 1
  height : Nat := 1
  depth : Nat := 1
  blockSize : Nat := 1
  blockExtentX : Nat := 1
  blockExtentY : Nat := 1
deriving DecidableEq, Repr

/-- `(header.Format.flags & DDPF_FOURCC) && (fourCC == D3DFMT_DX10 || fourCC == D3DFMT_GLI1)`. -/
def ddsExtended (h : DdsHeaderInput) : Bool :=
  h.fmtFlagsFourCC && h.fourCCIsDX10orGLI1

/-- `m_dataOffset = ftell(m_file)` after the header reads. -/
def ddsHeaderDataOffset (h : DdsHeaderInput) : Nat :=
  if ddsExtended h then sizeofMagic + sizeofHeader + sizeofHeader10
  else sizeofMagic + sizeofHeader

/-- `m_levels = (header.Flags & DDSD_MIPMAPCOUNT) ? int(header.MipMapLevels) : 1`. -/
def ddsLevelsOf (h : DdsHeaderInput) : Nat :=
  if h.flagsMipMapCount then h.mipMapLevels else 1

/-- `m_layers = int(std::max(header10.ArraySize, 1u))`; `ArraySize` is `1`
(default-constructed) when no extended header was read. -/
def ddsLayersOf (h : DdsHeaderInput) : Nat :=
  max (if ddsExtended h then h.arraySize10 else 1) 1

/-- `m_faces`: `1`, or the face-bit population count for cubemaps. -/
def ddsFacesOf (h : DdsHeaderInput) : Nat :=
  if h.cubemapFlagSet then h.cubemapFaceBitCount else 1

/-- One iteration of the level-size loop: clamp the level extent to ≥ 1,
round up to block granularity, multiply block counts (a `uint32_t`
multiplication, hence `% 2 ^ 32`) by the block byte size. -/
def ddsLevelSize (h : DdsHeaderInput) (level : Nat) : Nat :=
  let w := max (h.width >>> level) 1
  let ht := max (h.height >>> level) 1
  let widthBlocks := max 1 ((w + h.blockExtentX - 1) / h.blockExtentX)
  let heightBlocks := max 1 ((ht + h.blockExtentY - 1) / h.blockExtentY)
  widthBlocks * heightBlocks % 2 ^ 32 * h.blockSize

/-- The contents of `m_levelSizes[0..m_levels)` after the parse loop. -/
def ddsLevelSizesList (h : DdsHeaderInput) : List Nat :=
  (List.range (ddsLevelsOf h)).map (ddsLevelSize h)

/-- The parser fields a successful `DdsFileParser::parse` leaves behind. -/
structure DdsParsed where
  fileSize : Nat
  dataOffset : Nat
  width : Nat
  height : Nat
  depth : Nat
  levels : Nat
  layers : Nat
  faces : Nat
  levelSizes : List Nat
  sizeOfAllLevels : Nat
deriving DecidableEq, Repr

/-- The parsed state `parse` computes from the header fields. -/
def ddsParsedOf (h : DdsHeaderInput) : DdsParsed :=
  { fileSize := h.fileSize
    dataOffset := ddsHeaderDataOffset h
    width := h.width
    height := h.height
    depth := if h.volumeFlagSet then h.depth else 1
    levels := ddsLevelsOf h
    layers := ddsLayersOf h
    faces := ddsFacesOf h
    levelSizes := ddsLevelSizesList h
    sizeOfAllLevels := (ddsLevelSizesList h).sum }

/-- Outcome of `DdsFileParser::parse`: `ok` / `fail` are the `true` / `false`
returns; `assertLevelOverrun` is the
`assert(m_levelSizes.size() >= m_levels)` guard firing (debug abort). -/
inductive DdsParseResult where
  | ok (p : DdsParsed)
  | fail
  | assertLevelOverrun
deriving DecidableEq, Repr

/-- `DdsFileParser::parse`, with the checks in source order.  The second
component records whether the parser still holds an open `FILE*` when the
function returns: the early `return false` statements do *not* close the
handle; only the success path (and `closeHandle`/the destructor) do. -/
def ddsParseFull (h : DdsHeaderInput) : DdsParseResult × Bool :=
  if h.openOk = false then (.fail, false)
  else if h.fileSize < sizeofMagic + sizeofHeader then (.fail, true)
  else if h.magicOk = false then (.fail, true)
  else if ddsExtended h = true ∧ h.fileSize < sizeofMagic + sizeofHeader + sizeofHeader10 then
    (.fail, true)
  else if ddsLevelSizesCapacity < ddsLevelsOf h then (.assertLevelOverrun, true)
  else if h.fileSize <
      (ddsParsedOf h).sizeOfAllLevels * ((ddsParsedOf h).layers * (ddsParsedOf h).faces)
        + ddsHeaderDataOffset h then
    (.fail, true)
  else (.ok (ddsParsedOf h), false)

/-- The return value of `DdsFileParser::parse` (`.fst` of the full model). -/
def ddsParse (h : DdsHeaderInput) : DdsParseResult := (ddsParseFull h).1

/-- `DdsFileParser::closeHandle`: closes the handle if open, no-op otherwise;
afterwards no handle is held.  Also invoked by the destructor. -/
def closeHandle (_ : Bool) : Bool := false

/-- `DdsFileParser::getDataPlacement`: `offset = m_dataOffset +
(layer*m_faces + face) * m_sizeOfAllLevels`, then the loop adds
`m_levelSizes[i]` for `i < level`; `size = m_levelSizes[level]`. -/
def getDataPlacement (p : DdsParsed) (layer face level : Nat) : Nat × Nat :=
  (p.dataOffset + (layer * p.faces + face) * p.sizeOfAllLevels
      + ((List.range level).map (fun i => p.levelSizes.getD i 0)).sum,
   p.levelSizes.getD level 0)

/-- `DdsTextureData::placement`: forwards `(layer, face, level)` unchanged to
`getDataPlacement`. -/
def ddsPlacement (p : DdsParsed) (layer face level : Nat) : Nat × Nat :=
  getDataPlacement p layer face level

/-- `DdsTextureData::data(layer, level)`: computes the placement with the
face argument fixed to `0`, returns null (`none`) if the placement exceeds
the file size (lazy corruption check), otherwise a pointer at the computed
offset into the file mapping (modelled as the offset; OS mapping failures
are environment conditions outside this model and also produce null). -/
def ddsData (p : DdsParsed) (layer level : Nat) : Option Nat :=
  match getDataPlacement p layer 0 level with
  | (dataOffset, dataSize) =>
    if p.fileSize < dataOffset + dataSize then none
    else some dataOffset

/-- Failure condition 1 of `parse`: file too short for magic + primary header. -/
abbrev ddsFailShortPrimary (h : DdsHeaderInput) : Prop :=
  h.fileSize < sizeofMagic + sizeofHeader

/-- Failure condition 2 of `parse`: magic signature mismatch. -/
abbrev ddsFailMagic (h : DdsHeaderInput) : Prop := h.magicOk = false

/-- Failure condition 3 of `parse`: extended header signalled but the file is
too short for it. -/
abbrev ddsFailShortExtended (h : DdsHeaderInput) : Prop :=
  ddsExtended h = true ∧ h.fileSize < sizeofMagic + sizeofHeader + sizeofHeader10

/-- Failure condition 4 of `parse`: computed total payload exceeds file size. -/
abbrev ddsFailPayload (h : DdsHeaderInput) : Prop :=
  h.fileSize <
    (ddsParsedOf h).sizeOfAllLevels * ((ddsParsedOf h).layers * (ddsParsedOf h).faces)
      + ddsHeaderDataOffset h

/-- The indices the parse loop writes into `m_levelSizes`. -/
def ddsParseWriteIndices (h : DdsHeaderInput) : List Nat :=
  List.range (ddsLevelsOf h)

/- ===================== §3 PackagedAssetData and GliTextureData ===================== -/

/-- `AssetPackage::AssetDesc::Type`. -/
inductive AssetDescType where
  | BUFFER
  | IMAGE_1D
  | IMAGE_2D
  | IMAGE_CUBE
  | IMAGE_3D
  | UNKNOWN
deriving DecidableEq, Repr

/-- The fields of `AssetPackage::AssetDesc` that `getBlobIndex` reads
(`numMips`/`numTailMips` are unsigned 16-bit counters, the blob indices
`uint32_t`). -/
structure AssetDesc where
  type : AssetDescType
  numMips : Nat
  numTailMips : Nat
  baseBlobIdx : Nat
  tailBlobIdx : Nat
deriving DecidableEq, Repr

/-- `const uint32_t numLooseMips = m_assetDesc->numMips - m_assetDesc->numTailMips`:
the unsigned subtraction wraps modulo `2 ^ 32` when `numTailMips > numMips`. -/
def numLooseMips (d : AssetDesc) : Nat :=
  ((((d.numMips : Int) - (d.numTailMips : Int)) % 4294967296).toNat)

/-- `PackagedAssetData::getBlobIndex(layer, face, level)`. -/
def getBlobIndex (d : AssetDesc) (layer face level : Nat) : Nat :=
  if d.type = AssetDescType.BUFFER then
    d.baseBlobIdx
  else
    let lay := if d.type = AssetDescType.IMAGE_CUBE then layer * 6 + face else layer
    let nl := numLooseMips d
    let base := if nl ≤ level then d.tailBlobIdx else level + d.baseBlobIdx
    base + lay * nl

/-- A data-blob descriptor of the package (`getDataBlobDesc` result). -/
structure BlobDesc where
  offset : Nat
  size : Nat
  compression : Nat
deriving DecidableEq, Repr

/-- The external `AssetPackage` collaborator: blob descriptors by index, and
`readDataBlob(idx, buffer, size)` modelled as the bytes it stores into a
buffer of the given size. -/
structure AssetPackageModel where
  blobDesc : Nat → Option BlobDesc
  readBlob : Nat → Nat → List Nat

/-- The `std::unordered_map<uint32_t, std::vector<uint8_t>> m_data` cache,
as an association list with at most one entry per key. -/
abbrev PkgCache := List (Nat × List Nat)

/-- `m_data.find(blobIdx)`. -/
def cacheFind (c : PkgCache) (k : Nat) : Option (List Nat) :=
  match c.find? (fun e => e.1 == k) with
  | some e => some e.2
  | none => none

/-- `m_data.erase(blobIdx)`: removes the entry (and its vector) entirely. -/
def cacheErase (c : PkgCache) (k : Nat) : PkgCache :=
  c.filter (fun e => e.1 != k)

/-- Result of `PackagedAssetData::data`: a pointer to the bytes, a null
pointer (no blob descriptor), or the `DxvkError` thrown for compressed
blobs. -/
inductive DataResult where
  | bytes (b : List Nat)
  | nullPtr
  | errCompressed
deriving DecidableEq, Repr

/-- The body of `PackagedAssetData::data` after the blob index has been
derived: cache lookup, then descriptor lookup, compression check, blob read
and `try_emplace` insertion. -/
def dataAtIdx (pkg : AssetPackageModel) (c : PkgCache) (blobIdx : Nat) :
    DataResult × PkgCache :=
  match cacheFind c blobIdx with
  | some b => (.bytes b, c)
  | none =>
    match pkg.blobDesc blobIdx with
    | some bd =>
      if bd.compression ≠ 0 then (.errCompressed, c)
      else
        let b := pkg.readBlob blobIdx bd.size
        (.bytes b, (blobIdx, b) :: c)
    | none => (.nullPtr, c)

/-- `PackagedAssetData::data(layer, level)`: derives the blob index with the
face argument fixed to `0`, then runs the cache/read logic. -/
def dataOp (pkg : AssetPackageModel) (d : AssetDesc) (c : PkgCache) (layer level : Nat) :
    DataResult × PkgCache :=
  match cacheFind c (getBlobIndex d layer 0 level) with
  | some b => (.bytes b, c)
  | none =>
    match pkg.blobDesc (getBlobIndex d layer 0 level) with
    | some bd =>
      if bd.compression ≠ 0 then (.errCompressed, c)
      else
        let b := pkg.readBlob (getBlobIndex d layer 0 level) bd.size
        (.bytes b, (getBlobIndex d layer 0 level, b) :: c)
    | none => (.nullPtr, c)

/-- `PackagedAssetData::evictCache(layer, level)`: erases the cache entry of
the blob index derived with face `0`. -/
def evictOp (d : AssetDesc) (c : PkgCache) (layer level : Nat) : PkgCache :=
  cacheErase c (getBlobIndex d layer 0 level)

/-- `PackagedAssetData::placement(layer, face, level)`: offset/size from the
blob descriptor of the index derived with the caller's face; `none` models
the `assert(0 && "Data blob was not found!")` path. -/
def placementOp (pkg : AssetPackageModel) (d : AssetDesc) (layer face level : Nat) :
    Option (Nat × Nat) :=
  match pkg.blobDesc (getBlobIndex d layer face level) with
  | some bd => some (bd.offset, bd.size)
  | none => none

/-- One call against a `PackagedAssetData` instance. -/
inductive PkgOp where
  | readData (layer level : Nat)
  | evict (layer level : Nat)
deriving DecidableEq, Repr

/-- Runs a sequence of `data`/`evictCache` calls against the cache. -/
def runOps (pkg : AssetPackageModel) (d : AssetDesc) : PkgCache → List PkgOp → PkgCache
  | c, [] => c
  | c, .readData l lv :: rest => runOps pkg d (dataOp pkg d c l lv).2 rest
  | c, .evict l lv :: rest => runOps pkg d (evictOp d c l lv) rest

/-- Specification-side presence predicate: after the trace, blob index `idx`
has been read by a successful `data()` call and not evicted since (`b` is the
presence before the trace). -/
def specPresent (pkg : AssetPackageModel) (d : AssetDesc) (idx : Nat) :
    List PkgOp → Bool → Bool
  | [], b => b
  | .readData l lv :: rest, b =>
    let i := getBlobIndex d l 0 lv
    let fresh : Bool :=
      match pkg.blobDesc i with
      | some bd => bd.compression == 0
      | none => false
    specPresent pkg d idx rest (if i = idx then (b || fresh) else b)
  | .evict l lv :: rest, b =>
    specPresent pkg d idx rest (if getBlobIndex d l 0 lv = idx then false else b)

/-- The external `gli::texture` collaborator: `data(layer, face, level)`
returns a pointer into the decoded image (abstracted). -/
structure GliTextureModel where
  dataF : Nat → Nat → Nat → Option Nat

/-- `GliTextureData::data(layer, level)`: `m_texture.data(layer, 0, level)` —
the face argument is fixed to `0`. -/
def gliData (t : GliTextureModel) (layer level : Nat) : Option Nat :=
  t.dataF layer 0 level

/- ===================== §4 AssetDataManager ===================== -/

/-- The outside world of `AssetDataManager`: option flags, filesystem
queries and the external loaders.  `abspath` is
`std::filesystem::absolute(p).make_preferred().string()` (depends on the
process working directory); `pkgFindAsset pkg rel` is
`AssetPackage::findAsset(rel)` of the package mounted from file `pkg`
(`none` models `kNoAssetIdx`); `ddsLoadOk`/`gliLoadOk` are the success of
`DdsTextureData::load` / `GliTextureData::load`. -/
structure RtxEnv where
  rtxIoEnabled : Bool
  usePartialDdsLoader : Bool
  abspath : Str → Str
  fsExists : Str → Bool
  dirEntries : Str → List Str
  pkgInitOk : Str → Bool
  pkgFindAsset : Str → Str → Option Nat
  ddsLoadOk : Str → Bool
  gliLoadOk : Str → Bool

/-- `addSearchPath`'s base-path normalization: absolute + preferred
separators (`abspath`), lowercase, ensure a trailing separator. -/
def normalizeSearchPath (env : RtxEnv) (p : Str) : Str :=
  let n := toLowerStr (env.abspath p)
  if n ≠ [] ∧ n.getLast? ≠ some '\\' ∧ n.getLast? ≠ some '/' then n ++ ['\\'] else n

/-- `std::map<uint32_t, std::vector<β>>`: `m[k].push_back(v)` on a
key-ascending association list. -/
def slotAppend (m : List (Nat × List β)) (k : Nat) (v : β) : List (Nat × List β) :=
  match m with
  | [] => [(k, [v])]
  | (k', vs) :: rest =>
    if k < k' then (k, [v]) :: (k', vs) :: rest
    else if k = k' then (k', vs ++ [v]) :: rest
    else (k', vs) :: slotAppend rest k v

/-- The value stored at key `k` (empty vector when absent). -/
def lookupSlot (m : List (Nat × List β)) (k : Nat) : List β :=
  match m with
  | [] => []
  | e :: rest => if k = e.1 then e.2 else lookupSlot rest k

/-- `std::map<std::string, Rc<AssetPackage>>::emplace`: ordered insert by
package path, keeping the existing entry on a duplicate key. -/
def insortByName (e : Str) : List Str → List Str
  | [] => [e]
  | x :: xs =>
    if strLtB e x then e :: x :: xs
    else if e = x then x :: xs
    else x :: insortByName e xs

/-- `std::filesystem::path::extension` of a directory entry, compared
against the package extensions: suffix of the filename part from its last
dot (dot-files and dot-less names have no extension). -/
def pkgExtOk (p : Str) : Bool :=
  let fname := (p.reverse.takeWhile (fun c => c ≠ '\\' ∧ c ≠ '/')).reverse
  match lastDotSuffix fname with
  | some ext => (ext == ['.', 'p', 'k', 'g'] || ext == ['.', 'r', 't', 'x', 'i', 'o']) &&
      decide (ext.length < fname.length)
  | none => false

/-- The package set mounted for one directory: every directory entry with a
package extension whose `AssetPackage::initialize()` succeeds, keyed (and
therefore ordered) by its path in the `std::map` package set. -/
def scanDir (env : RtxEnv) (path : Str) : List Str :=
  (env.dirEntries path).foldl
    (fun acc e => if pkgExtOk e && env.pkgInitOk e then insortByName e acc else acc) []

/-- The manager's registries: `m_searchPaths : std::map<uint32_t,
std::vector<std::string>>` and `m_packageSets : std::map<uint32_t,
std::vector<std::pair<std::string, PackageSet>>>` (member declarations live
in the class header, reconstructed here from the iteration and the comments
in the translation unit; the spec describes the same shape).  `scannedDirs`
is instrumentation recording each directory iteration the code performs. -/
structure AssetDataManagerState where
  searchPaths : List (Nat × List Str) := []
  packageSets : List (Nat × List (Str × List Str)) := []
  scannedDirs : List Str := []

/-- The global dedupe test: the normalized path exists under some priority. -/
def pathRegistered (st : AssetDataManagerState) (n : Str) : Bool :=
  st.searchPaths.any (fun pr => pr.2.any (fun e => e == n))

/-- Number of registry entries holding exactly the normalized path `n`. -/
def countRegistered (st : AssetDataManagerState) (n : Str) : Nat :=
  (st.searchPaths.map (fun pr => pr.2.countP (fun e => e == n))).sum

/-- `AssetDataManager::addSearchPath(priority, path)`: normalize, global
dedupe (silent no-op), record the path, and — when RTX IO is enabled —
scan the directory (when it exists) and record the mounted package set. -/
def addSearchPath (env : RtxEnv) (st : AssetDataManagerState) (priority : Nat) (path : Str) :
    AssetDataManagerState :=
  let normalized := normalizeSearchPath env path
  if pathRegistered st normalized then st
  else
    let sp := slotAppend st.searchPaths priority normalized
    if env.rtxIoEnabled then
      { searchPaths := sp
        packageSets := slotAppend st.packageSets priority (normalized, scanDir env path)
        scannedDirs := st.scannedDirs ++ if env.fsExists path then [path] else [] }
    else
      { st with searchPaths := sp }

/-- The concrete asset-data variant `findAsset` resolves to. -/
inductive FoundAsset where
  | ddsTexture (filename : Str)
  | packaged (pkg : Str) (assetIdx : Nat)
  | gliTexture (filename : Str)
deriving DecidableEq, Repr

/-- Outcome of `findAsset`: a resolved asset, a null result, or the
`std::out_of_range` escaping from `std::string::substr`. -/
inductive FindOutcome where
  | found (a : FoundAsset)
  | nullResult
  | thrown
deriving DecidableEq, Repr

/-- Instrumentation: one I/O probe `findAsset` performs against a source. -/
inductive Attempt where
  | ddsLoad (filename : Str)
  | pkgProbe (pkg : Str) (rel : Str)
  | gliLoad (filename : Str)
deriving DecidableEq, Repr

/-- The inner package loop: probe the (already reversed) package list with
`AssetPackage::findAsset(relativePath)`, returning the first hit. -/
def probePackages (env : RtxEnv) (rel : Str) :
    List Str → Option (Str × Nat) × List Attempt
  | [] => (none, [])
  | p :: rest =>
    match env.pkgFindAsset p rel with
    | some i => (some (p, i), [.pkgProbe p rel])
    | none =>
      let r := probePackages env rel rest
      (r.1, .pkgProbe p rel :: r.2)

/-- The middle loop over one priority's (already reversed) path entries:
strict-prefix match on the normalized names, `substr` on the *original*
filename, then the package probe; a miss continues with the next entry. -/
def searchEntries (env : RtxEnv) (filename filenameLower : Str) :
    List (Str × List Str) → Option FindOutcome × List Attempt
  | [] => (none, [])
  | ent :: rest =>
    if ent.1.length < filenameLower.length ∧ ent.1.isPrefixOf filenameLower = true then
      match substrFrom filename ent.1.length with
      | none => (some .thrown, [])
      | some rel =>
        match probePackages env rel ent.2.reverse with
        | (some pi, log) => (some (.found (.packaged pi.1 pi.2)), log)
        | (none, log) =>
          let r := searchEntries env filename filenameLower rest
          (r.1, log ++ r.2)
    else searchEntries env filename filenameLower rest

/-- The outer loop over the (already reversed) priority map. -/
def searchPriorities (env : RtxEnv) (filename filenameLower : Str) :
    List (Nat × List (Str × List Str)) → Option FindOutcome × List Attempt
  | [] => (none, [])
  | pr :: rest =>
    match searchEntries env filename filenameLower pr.2.reverse with
    | (some out, log) => (some out, log)
    | (none, log) =>
      let r := searchPriorities env filename filenameLower rest
      (r.1, log ++ r.2)

/-- `strrchr(filename, '.')` + `_stricmp(extension, ".dds") == 0`. -/
def isDdsFile (filename : Str) : Bool :=
  match lastDotSuffix filename with
  | some ext => ciEqStr ext ['.', 'd', 'd', 's']
  | none => false

/-- `AssetDataManager::findAsset(filename)`, with its probe log:
extension gate, partial DDS loader, package search (priorities reversed,
entries reversed, packages reversed), GLI fallback. -/
def findAssetFull (env : RtxEnv) (st : AssetDataManagerState) (filename : Str) :
    FindOutcome × List Attempt :=
  if isDdsFile filename = false then (.nullResult, [])
  else
    let ddsLog : List Attempt := if env.usePartialDdsLoader then [.ddsLoad filename] else []
    if env.usePartialDdsLoader ∧ env.ddsLoadOk filename = true then
      (.found (.ddsTexture filename), ddsLog)
    else
      let pkgRes :=
        if env.rtxIoEnabled ∧ st.packageSets ≠ [] then
          searchPriorities env filename (toLowerStr (env.abspath filename)) st.packageSets.reverse
        else (none, [])
      match pkgRes with
      | (some out, log) => (out, ddsLog ++ log)
      | (none, log) =>
        if env.gliLoadOk filename then
          (.found (.gliTexture filename), ddsLog ++ log ++ [.gliLoad filename])
        else (.nullResult, ddsLog ++ log ++ [.gliLoad filename])

/-- The return value of `AssetDataManager::findAsset`. -/
def findAsset (env : RtxEnv) (st : AssetDataManagerState) (filename : Str) : FindOutcome :=
  (findAssetFull env st filename).1

/-- Candidate packages in the order the claim describes: priorities highest
to lowest, most-recently-added path entry first within a priority, matching
entries only, packages in reverse name order; each candidate carries
`(priority, normalized base path, package path)`. -/
def entryCandidates (filenameLower : Str) (pr : Nat) (ent : Str × List Str) :
    List (Nat × Str × Str) :=
  if ent.1.length < filenameLower.length ∧ ent.1.isPrefixOf filenameLower = true then
    ent.2.reverse.map (fun p => (pr, ent.1, p))
  else []

/-- All candidates of the package search, flattened in search order. -/
def pkgCandidates (st : AssetDataManagerState) (filenameLower : Str) :
    List (Nat × Str × Str) :=
  (st.packageSets.reverse).flatMap
    (fun pr => (pr.2.reverse).flatMap (entryCandidates filenameLower pr.1))

/-- The probe one candidate performs: the package is asked for the suffix of
the *original* filename past the base path's length. -/
def candidateHit (env : RtxEnv) (filename : Str) (c : Nat × Str × Str) :
    Option (Str × Nat) :=
  (env.pkgFindAsset c.2.2 (filename.drop c.2.1.length)).map (fun i => (c.2.2, i))

/-- Declarative result of the package tier: the first candidate whose
package contains the relative path. -/
def firstPackageHit (env : RtxEnv) (filename : Str) (cands : List (Nat × Str × Str)) :
    Option (Str × Nat) :=
  cands.findSome? (candidateHit env filename)

/-- The normalized base paths whose strict-prefix test succeeds for this
lookup, in search order (these are exactly the entries on which the code
calls `substr`). -/
def matchedBases (st : AssetDataManagerState) (filenameLower : Str) : List Str :=
  (st.packageSets.reverse).flatMap (fun pr =>
    (pr.2.reverse).filterMap (fun ent =>
      if ent.1.length < filenameLower.length ∧ ent.1.isPrefixOf filenameLower = true then
        some ent.1
      else none))

/- ===================== §5 Concrete inputs for witnesses ===================== -/

/-- A DDS header input whose magic check fails on a reasonably sized file. -/
def exDdsMagicFail : DdsHeaderInput := { fileSize := 4096, magicOk := false }

/-- A DDS file too short for the magic plus primary header. -/
def exDdsShort : DdsHeaderInput := { fileSize := 10 }

/-- A valid DX10 DDS: 4×4, 3 mips, 2 layers, 1-byte blocks; payload
`(16+4+1)*2` after the 148-byte headers ⇒ exactly 190 bytes. -/
def exDdsGood : DdsHeaderInput :=
  { fileSize := 190, fmtFlagsFourCC := true, fourCCIsDX10orGLI1 := true,
    flagsMipMapCount := true, mipMapLevels := 3, arraySize10 := 2,
    width := 4, height := 4 }

/-- A DDS header declaring 20 mip levels: overruns the 16-entry array. -/
def exDdsOverrun : DdsHeaderInput :=
  { fileSize := 1000000, flagsMipMapCount := true, mipMapLevels := 20 }

/-- The claim C3 example: non-cube image, `numMips = 8`, `numTailMips = 3`,
`baseBlobIdx = 100`, with tail blob index 200. -/
def exDesc3 : AssetDesc :=
  { type := .IMAGE_2D, numMips := 8, numTailMips := 3,
    baseBlobIdx := 100, tailBlobIdx := 200 }

/-- A cube-image descriptor (4 mips, 1 tail mip). -/
def exDescCube : AssetDesc :=
  { type := .IMAGE_CUBE, numMips := 4, numTailMips := 1,
    baseBlobIdx := 10, tailBlobIdx := 90 }

/-- A 2-mip, 1-tail-mip image descriptor inside `exPkg`. -/
def exDescP : AssetDesc :=
  { type := .IMAGE_2D, numMips := 2, numTailMips := 1,
    baseBlobIdx := 100, tailBlobIdx := 150 }

/-- A package with two uncompressed blobs (100, 101), one compressed blob
(150), and nothing else; `readBlob i n` yields `n` bytes of value `i`. -/
def exPkg : AssetPackageModel :=
  { blobDesc := fun i =>
      if i = 100 then some { offset := 0, size := 3, compression := 0 }
      else if i = 101 then some { offset := 3, size := 4, compression := 0 }
      else if i = 150 then some { offset := 7, size := 2, compression := 1 }
      else none,
    readBlob := fun i n => List.replicate n i }

/-- Path/package-name constants for the manager examples. -/
def exBaseA : Str := ['c', ':', '\\', 'a', '\\']

/-- Second normalized base path. -/
def exBaseB : Str := ['c', ':', '\\', 'b', '\\']

/-- A package file under `exBaseA` (name sorts before `exPkgA2`). -/
def exPkgA1 : Str := ['c', ':', '\\', 'a', '\\', 'm', '.', 'p', 'k', 'g']

/-- A package file under `exBaseA` (name sorts after `exPkgA1`). -/
def exPkgA2 : Str := ['c', ':', '\\', 'a', '\\', 'z', '.', 'p', 'k', 'g']

/-- A package file under `exBaseB`. -/
def exPkgB : Str := ['c', ':', '\\', 'b', '\\', 'p', '.', 'p', 'k', 'g']

/-- An absolute, already-preferred-separator DDS filename under `exBaseA`. -/
def exFile : Str := ['c', ':', '\\', 'a', '\\', 't', '.', 'd', 'd', 's']

/-- `exFile` relative to `exBaseA`. -/
def exRel : Str := ['t', '.', 'd', 'd', 's']

/-- The un-normalized directory argument normalizing to `exBaseA`. -/
def exPathA : Str := ['C', ':', '\\', 'a']

/-- Environment for the resolution examples: RTX IO on, partial DDS loader
off, identity `absolute()` (the example paths are already absolute with
preferred separators), only `exPkgA2` contains `exRel`, gli always loads. -/
def exEnv : RtxEnv :=
  { rtxIoEnabled := true
    usePartialDdsLoader := false
    abspath := fun s => s
    fsExists := fun _ => true
    dirEntries := fun _ => []
    pkgInitOk := fun _ => true
    pkgFindAsset := fun p rel => if p = exPkgA2 ∧ rel = exRel then some 7 else none
    ddsLoadOk := fun _ => false
    gliLoadOk := fun _ => true }

/-- Environment for the `addSearchPath` examples: directory listing returns
the two `exBaseA` packages in unsorted order, everything mounts. -/
def exEnvB : RtxEnv :=
  { rtxIoEnabled := true
    usePartialDdsLoader := false
    abspath := fun s => s
    fsExists := fun _ => true
    dirEntries := fun _ => [exPkgA2, exPkgA1]
    pkgInitOk := fun _ => true
    pkgFindAsset := fun _ _ => none
    ddsLoadOk := fun _ => false
    gliLoadOk := fun _ => false }

/-- A manager state with one package set per priority, both mounted. -/
def exSt : AssetDataManagerState :=
  { searchPaths := [(1, [exBaseA]), (2, [exBaseB])]
    packageSets := [(1, [(exBaseA, [exPkgA1, exPkgA2])]), (2, [(exBaseB, [exPkgB])])]
    scannedDirs := [] }

/-- State invariant maintained by `addSearchPath`: priority keys strictly
ascending (`std::map`), each mounted package set sorted by name
(`std::map<std::string, …>`). -/
def stateInv (st : AssetDataManagerState) : Prop :=
  (st.packageSets.map Prod.fst).Pairwise (· < ·) ∧
    ∀ pr ∈ st.packageSets, ∀ ent ∈ pr.2, ent.2.Pairwise (fun a b => strLtB a b = true)

/- ===================== §6 Helper lemmas ===================== -/

theorem numLooseMips_of_le (d : AssetDesc) (hle : d.numTailMips ≤ d.numMips)
    (hw : d.numMips < 2 ^ 32) : numLooseMips d = d.numMips - d.numTailMips := by
  have h32 : (2 : Nat) ^ 32 = 4294967296 := by norm_num
  rw [h32] at hw
  unfold numLooseMips
  omega

/- ===================== §7 Claim theorems ===================== -/

/-- C3, counterexample: for the claim's own example descriptor
(`numMips = 8`, `numTailMips = 3`, `baseBlobIdx = 100`, non-cube) a tail
level (7) at layer 1 yields `205 = tailBlobIdx + layer*5`, not the tail
blob index itself — the tail index is *not* layer-independent. -/
theorem c3_tail_not_layer_independent :
    getBlobIndex exDesc3 1 0 7 = 205 ∧ exDesc3.tailBlobIdx = 200 ∧
      getBlobIndex exDesc3 1 0 7 ≠ exDesc3.tailBlobIdx := by
  decide

/-- C3, amended: for buffers the index is always `baseBlobIdx`; for cube
images the layer is folded to `layer*6+face`; a level at or beyond
`numMips - numTailMips` yields the tail blob index *offset by
`layer*(numMips - numTailMips)`* (layer-dependent, like the loose mips), and
a level below the threshold yields `level + baseBlobIdx` offset by the same
layer term. -/
theorem c3_blob_index_derivation (d : AssetDesc) (layer face level : Nat)
    (hle : d.numTailMips ≤ d.numMips) (hw : d.numMips < 2 ^ 32) :
    (d.type = AssetDescType.BUFFER → getBlobIndex d layer face level = d.baseBlobIdx) ∧
    (d.type ≠ AssetDescType.BUFFER →
      getBlobIndex d layer face level =
        (if d.numMips - d.numTailMips ≤ level then d.tailBlobIdx
         else level + d.baseBlobIdx)
          + (if d.type = AssetDescType.IMAGE_CUBE then layer * 6 + face else layer)
              * (d.numMips - d.numTailMips)) := by
  have hnl := numLooseMips_of_le d hle hw
  constructor
  · intro ht
    simp [getBlobIndex, ht]
  · intro ht
    simp only [getBlobIndex, if_neg ht, hnl]

/-- C3 witness: the amended derivation evaluated on the claim's example. -/
theorem c3_blob_index_derivation_witness :
    getBlobIndex exDesc3 1 0 7 = exDesc3.tailBlobIdx + 1 * 5 ∧
    getBlobIndex exDesc3 1 0 2 = (2 + exDesc3.baseBlobIdx) + 1 * 5 := by
  constructor
  · exact ((c3_blob_index_derivation exDesc3 1 0 7 (by decide) (by decide)).2
      (by decide)).trans (by decide)
  · exact ((c3_blob_index_derivation exDesc3 1 0 2 (by decide) (by decide)).2
      (by decide)).trans (by decide)

/-- C8: the per-level size array has fixed capacity 16; under
`levels ≤ 16` every write index of the parse loop is in bounds; the
assertion guard fires exactly when the header passes the earlier checks but
declares more than 16 levels, and parse never succeeds for such counts. -/
theorem c8_mip_capacity_guard :
    ddsLevelSizesCapacity = 16 ∧
    (∀ h : DdsHeaderInput, ddsLevelsOf h ≤ ddsLevelSizesCapacity →
      ∀ i ∈ ddsParseWriteIndices h, i < ddsLevelSizesCapacity) ∧
    (∀ h : DdsHeaderInput, h.openOk = true →
      (ddsParse h = .assertLevelOverrun ↔
        (¬ ddsFailShortPrimary h ∧ ¬ ddsFailMagic h ∧ ¬ ddsFailShortExtended h ∧
          ddsLevelSizesCapacity < ddsLevelsOf h))) ∧
    (∀ h : DdsHeaderInput, ddsLevelSizesCapacity < ddsLevelsOf h →
      ∀ p, ddsParse h ≠ .ok p) := by
  refine ⟨rfl, ?_, ?_, ?_⟩
  · intro h hcap i hi
    simp only [ddsParseWriteIndices, List.mem_range] at hi
    omega
  · intro h hopen
    simp only [ddsParse, ddsParseFull, ddsFailShortPrimary, ddsFailMagic,
      ddsFailShortExtended, hopen]
    split_ifs with h1 h2 h3 h4 h5 <;> simp_all
  · intro h hcap p
    simp only [ddsParse, ddsParseFull]
    split_ifs <;> simp_all

/-- C8 witness: a 20-level header triggers the guard; a 3-level header
writes only in-bounds indices. -/
theorem c8_mip_capacity_guard_witness :
    ddsParse exDdsOverrun = DdsParseResult.assertLevelOverrun ∧
    (∀ i ∈ ddsParseWriteIndices exDdsGood, i < ddsLevelSizesCapacity) := by
  constructor
  · exact (c8_mip_capacity_guard.2.2.1 exDdsOverrun rfl).mpr (by decide)
  · exact c8_mip_capacity_guard.2.1 exDdsGood (by decide)

/-- C9: every `data(layer, level)` addresses face 0 only — the DDS variant
computes its placement with the face argument fixed to 0 (while its
`placement` override passes the caller's face through), the packaged variant
derives its blob index with face 0 (so a cube asset's folded linear face
index under `data` is `layer*6`), and the GLI variant reads the texture at
face 0. -/
theorem c9_data_face_zero :
    (∀ (p : DdsParsed) (layer level : Nat),
      ddsData p layer level =
        if p.fileSize <
            (getDataPlacement p layer 0 level).1 + (getDataPlacement p layer 0 level).2
        then none else some (getDataPlacement p layer 0 level).1) ∧
    (∀ (p : DdsParsed) (layer face level : Nat),
      ddsPlacement p layer face level = getDataPlacement p layer face level) ∧
    (∀ (pkg : AssetPackageModel) (d : AssetDesc) (c : PkgCache) (layer level : Nat),
      dataOp pkg d c layer level = dataAtIdx pkg c (getBlobIndex d layer 0 level)) ∧
    (∀ (d : AssetDesc) (layer level : Nat), d.type = AssetDescType.IMAGE_CUBE →
      getBlobIndex d layer 0 level =
        (if numLooseMips d ≤ level then d.tailBlobIdx else level + d.baseBlobIdx)
          + layer * 6 * numLooseMips d) ∧
    (∀ (t : GliTextureModel) (layer level : Nat), gliData t layer level = t.dataF layer 0 level) := by
  refine ⟨?_, ?_, ?_, ?_, ?_⟩
  · intro p layer level
    rfl
  · intro p layer face level
    rfl
  · intro pkg d c layer level
    rfl
  · intro d layer level ht
    simp [getBlobIndex, ht]
  · intro t layer level
    rfl

/-- C9 witness: the cube-asset fold evaluated on a concrete cube
descriptor at layer 2, level 3 (tail): `90 + (2*6)*3 = 126`. -/
theorem c9_data_face_zero_witness :
    getBlobIndex exDescCube 2 0 3 = 126 ∧
    dataOp exPkg exDescP [] 0 0 = dataAtIdx exPkg [] (getBlobIndex exDescP 0 0 0) := by
  constructor
  · exact (c9_data_face_zero.2.2.2.1 exDescCube 2 3 rfl).trans (by decide)
  · exact c9_data_face_zero.2.2.1 exPkg exDescP [] 0 0

theorem cacheFind_cons (e : Nat × List Nat) (c : PkgCache) (k : Nat) :
    cacheFind (e :: c) k = if e.1 = k then some e.2 else cacheFind c k := by
  by_cases h : e.1 = k <;> simp [cacheFind, List.find?_cons, h]

theorem cacheErase_idem (c : PkgCache) (k : Nat) :
    cacheErase (cacheErase c k) k = cacheErase c k := by
  simp [cacheErase, List.filter_filter]

theorem cacheFind_erase_self (c : PkgCache) (k : Nat) :
    cacheFind (cacheErase c k) k = none := by
  induction c with
  | nil => rfl
  | cons e rest ih =>
    by_cases h : e.1 = k
    · simpa [cacheErase, List.filter_cons, h] using ih
    · simpa [cacheErase, List.filter_cons, h, cacheFind_cons] using ih

theorem cacheFind_erase_other (c : PkgCache) (k k' : Nat) (h : k ≠ k') :
    cacheFind (cacheErase c k') k = cacheFind c k := by
  induction c with
  | nil => rfl
  | cons e rest ih =>
    by_cases he : e.1 = k'
    · have hek : ¬ e.1 = k := fun hk => h (by rw [← hk, he])
      rw [show cacheErase (e :: rest) k' = cacheErase rest k' from by
        simp [cacheErase, List.filter_cons, he]]
      rw [ih, cacheFind_cons, if_neg hek]
    · rw [show cacheErase (e :: rest) k' = e :: cacheErase rest k' from by
        simp [cacheErase, List.filter_cons, he]]
      rw [cacheFind_cons, cacheFind_cons, ih]

theorem dataOp_cache_hit (pkg : AssetPackageModel) (d : AssetDesc) (c : PkgCache)
    (layer level : Nat) (b : List Nat)
    (h : cacheFind c (getBlobIndex d layer 0 level) = some b) :
    dataOp pkg d c layer level = (.bytes b, c) := by
  simp [dataOp, h]

theorem dataOp_miss_nodesc (pkg : AssetPackageModel) (d : AssetDesc) (c : PkgCache)
    (layer level : Nat)
    (h1 : cacheFind c (getBlobIndex d layer 0 level) = none)
    (h2 : pkg.blobDesc (getBlobIndex d layer 0 level) = none) :
    dataOp pkg d c layer level = (.nullPtr, c) := by
  simp [dataOp, h1, h2]

theorem dataOp_miss_compressed (pkg : AssetPackageModel) (d : AssetDesc) (c : PkgCache)
    (layer level : Nat) (bd : BlobDesc)
    (h1 : cacheFind c (getBlobIndex d layer 0 level) = none)
    (h2 : pkg.blobDesc (getBlobIndex d layer 0 level) = some bd)
    (h3 : bd.compression ≠ 0) :
    dataOp pkg d c layer level = (.errCompressed, c) := by
  simp [dataOp, h1, h2, h3]

theorem dataOp_miss_read (pkg : AssetPackageModel) (d : AssetDesc) (c : PkgCache)
    (layer level : Nat) (bd : BlobDesc)
    (h1 : cacheFind c (getBlobIndex d layer 0 level) = none)
    (h2 : pkg.blobDesc (getBlobIndex d layer 0 level) = some bd)
    (h3 : bd.compression = 0) :
    dataOp pkg d c layer level =
      (.bytes (pkg.readBlob (getBlobIndex d layer 0 level) bd.size),
       (getBlobIndex d layer 0 level,
         pkg.readBlob (getBlobIndex d layer 0 level) bd.size) :: c) := by
  simp [dataOp, h1, h2, h3]

theorem dataOp_find_other (pkg : AssetPackageModel) (d : AssetDesc) (c : PkgCache)
    (layer level idx : Nat) (h : getBlobIndex d layer 0 level ≠ idx) :
    cacheFind (dataOp pkg d c layer level).2 idx = cacheFind c idx := by
  cases hfind : cacheFind c (getBlobIndex d layer 0 level) with
  | some b => rw [dataOp_cache_hit pkg d c layer level b hfind]
  | none =>
    cases hdesc : pkg.blobDesc (getBlobIndex d layer 0 level) with
    | none => rw [dataOp_miss_nodesc pkg d c layer level hfind hdesc]
    | some bd =>
      by_cases hc : bd.compression = 0
      · rw [dataOp_miss_read pkg d c layer level bd hfind hdesc hc, cacheFind_cons]
        simp [h]
      · rw [dataOp_miss_compressed pkg d c layer level bd hfind hdesc hc]

theorem runOps_cacheFind_invariant (pkg : AssetPackageModel) (d : AssetDesc) (idx : Nat) :
    ∀ (ops : List PkgOp) (c : PkgCache) (b : Bool),
      (cacheFind c idx).isSome = b →
      (cacheFind (runOps pkg d c ops) idx).isSome = specPresent pkg d idx ops b := by
  intro ops
  induction ops with
  | nil =>
    intro c b hb
    simpa [runOps, specPresent] using hb
  | cons op rest ih =>
    intro c b hb
    cases op with
    | readData l lv =>
      simp only [runOps, specPresent]
      apply ih
      by_cases hidx : getBlobIndex d l 0 lv = idx
      · rw [if_pos hidx]
        cases hfind : cacheFind c idx with
        | some bytes =>
          have hfind' : cacheFind c (getBlobIndex d l 0 lv) = some bytes := by
            rw [hidx]; exact hfind
          rw [dataOp_cache_hit pkg d c l lv bytes hfind', hfind]
          simp [hfind] at hb
          simp [← hb]
        | none =>
          have hfind' : cacheFind c (getBlobIndex d l 0 lv) = none := by
            rw [hidx]; exact hfind
          simp [hfind] at hb
          cases hdesc : pkg.blobDesc (getBlobIndex d l 0 lv) with
          | none =>
            rw [dataOp_miss_nodesc pkg d c l lv hfind' hdesc, hfind, hidx] at *
            simp [hdesc, ← hb]
          | some bd =>
            by_cases hc : bd.compression = 0
            · rw [dataOp_miss_read pkg d c l lv bd hfind' hdesc hc, cacheFind_cons]
              rw [hidx] at *
              simp [hdesc, hc, ← hb]
            · rw [dataOp_miss_compressed pkg d c l lv bd hfind' hdesc hc, hfind]
              rw [hidx] at *
              simp [hdesc, hc, ← hb]
      · rw [if_neg hidx, dataOp_find_other pkg d c l lv idx hidx]
        exact hb
    | evict l lv =>
      simp only [runOps, specPresent]
      apply ih
      by_cases hidx : getBlobIndex d l 0 lv = idx
      · rw [if_pos hidx]
        unfold evictOp
        rw [hidx, cacheFind_erase_self]
        rfl
      · rw [if_neg hidx]
        unfold evictOp
        rw [cacheFind_erase_other c idx (getBlobIndex d l 0 lv) (fun he => hidx he.symm)]
        exact hb

/-- C5: `evictCache` is idempotent (a second identical call is a no-op);
after eviction the cache holds no entry at the derived blob index; a
subsequent `data` re-reads the blob from the package and re-inserts it; and
over any call sequence from construction, a blob index is cached iff it has
been read by a successful `data()` and not evicted since. -/
theorem c5_evict_cache_semantics :
    (∀ (d : AssetDesc) (c : PkgCache) (layer level : Nat),
      evictOp d (evictOp d c layer level) layer level = evictOp d c layer level) ∧
    (∀ (d : AssetDesc) (c : PkgCache) (layer level : Nat),
      cacheFind (evictOp d c layer level) (getBlobIndex d layer 0 level) = none) ∧
    (∀ (pkg : AssetPackageModel) (d : AssetDesc) (c : PkgCache) (layer level : Nat)
       (bd : BlobDesc),
      pkg.blobDesc (getBlobIndex d layer 0 level) = some bd → bd.compression = 0 →
      dataOp pkg d (evictOp d c layer level) layer level =
        (.bytes (pkg.readBlob (getBlobIndex d layer 0 level) bd.size),
         (getBlobIndex d layer 0 level,
           pkg.readBlob (getBlobIndex d layer 0 level) bd.size) :: evictOp d c layer level)) ∧
    (∀ (pkg : AssetPackageModel) (d : AssetDesc) (idx : Nat) (ops : List PkgOp),
      (cacheFind (runOps pkg d [] ops) idx).isSome = specPresent pkg d idx ops false) := by
  refine ⟨?_, ?_, ?_, ?_⟩
  · intro d c layer level
    exact cacheErase_idem c (getBlobIndex d layer 0 level)
  · intro d c layer level
    exact cacheFind_erase_self c (getBlobIndex d layer 0 level)
  · intro pkg d c layer level bd h2 h3
    exact dataOp_miss_read pkg d (evictOp d c layer level) layer level bd
      (cacheFind_erase_self c (getBlobIndex d layer 0 level)) h2 h3
  · intro pkg d idx ops
    exact runOps_cacheFind_invariant pkg d idx ops [] false rfl

/-- C5 witness: read, evict twice, read again on the concrete package. -/
theorem c5_evict_cache_semantics_witness :
    dataOp exPkg exDescP (evictOp exDescP [(100, [9, 9, 9])] 0 0) 0 0 =
      (.bytes [100, 100, 100], [(100, [100, 100, 100])]) ∧
    (cacheFind (runOps exPkg exDescP []
        [.readData 0 0, .evict 0 0, .evict 0 0, .readData 0 0]) 100).isSome = true := by
  constructor
  · exact (c5_evict_cache_semantics.2.2.1 exPkg exDescP [(100, [9, 9, 9])] 0 0
      { offset := 0, size := 3, compression := 0 } (by decide) (by decide)).trans (by decide)
  · exact (c5_evict_cache_semantics.2.2.2 exPkg exDescP 100
      [.readData 0 0, .evict 0 0, .evict 0 0, .readData 0 0]).trans (by decide)

/-- C7: `data(layer, level)` on a cache hit returns the cached bytes with
the cache untouched; on a miss it throws for a compressed blob descriptor
(no decompressor is invoked — the model has none), reads and inserts the raw
bytes for an uncompressed one, and returns null when no blob descriptor
exists for the derived index. -/
theorem c7_packaged_data_behavior (pkg : AssetPackageModel) (d : AssetDesc)
    (c : PkgCache) (layer level : Nat) :
    (∀ b, cacheFind c (getBlobIndex d layer 0 level) = some b →
      dataOp pkg d c layer level = (.bytes b, c)) ∧
    (cacheFind c (getBlobIndex d layer 0 level) = none →
      (pkg.blobDesc (getBlobIndex d layer 0 level) = none →
        dataOp pkg d c layer level = (.nullPtr, c)) ∧
      (∀ bd, pkg.blobDesc (getBlobIndex d layer 0 level) = some bd →
        (bd.compression ≠ 0 → dataOp pkg d c layer level = (.errCompressed, c)) ∧
        (bd.compression = 0 →
          dataOp pkg d c layer level =
            (.bytes (pkg.readBlob (getBlobIndex d layer 0 level) bd.size),
             (getBlobIndex d layer 0 level,
               pkg.readBlob (getBlobIndex d layer 0 level) bd.size) :: c) ∧
          cacheFind (dataOp pkg d c layer level).2 (getBlobIndex d layer 0 level) =
            some (pkg.readBlob (getBlobIndex d layer 0 level) bd.size)))) := by
  refine ⟨?_, ?_⟩
  · intro b hb
    exact dataOp_cache_hit pkg d c layer level b hb
  · intro h1
    refine ⟨fun h2 => dataOp_miss_nodesc pkg d c layer level h1 h2, ?_⟩
    intro bd h2
    refine ⟨fun h3 => dataOp_miss_compressed pkg d c layer level bd h1 h2 h3, ?_⟩
    intro h3
    refine ⟨dataOp_miss_read pkg d c layer level bd h1 h2 h3, ?_⟩
    rw [dataOp_miss_read pkg d c layer level bd h1 h2 h3, cacheFind_cons]
    simp

/-- C7 witness: all four behaviors on the concrete package. -/
theorem c7_packaged_data_behavior_witness :
    dataOp exPkg exDescP [(100, [9])] 0 0 = (.bytes [9], [(100, [9])]) ∧
    dataOp exPkg exDescP [] 5 0 = (.nullPtr, []) ∧
    dataOp exPkg exDescP [] 0 1 = (.errCompressed, []) ∧
    dataOp exPkg exDescP [] 0 0 = (.bytes [100, 100, 100], [(100, [100, 100, 100])]) := by
  refine ⟨?_, ?_, ?_, ?_⟩
  · exact (c7_packaged_data_behavior exPkg exDescP [(100, [9])] 0 0).1 [9] (by decide)
  · exact ((c7_packaged_data_behavior exPkg exDescP [] 5 0).2 (by decide)).1 (by decide)
  · exact (((c7_packaged_data_behavior exPkg exDescP [] 0 1).2 (by decide)).2
      { offset := 7, size := 2, compression := 1 } (by decide)).1 (by decide)
  · exact ((((c7_packaged_data_behavior exPkg exDescP [] 0 0).2 (by decide)).2
      { offset := 0, size := 3, compression := 0 } (by decide)).2 (by decide)).1.trans (by decide)

/-- C4, counterexample: on a magic-signature mismatch `parse` returns false
but the parser still holds the open `FILE*` — the early `return false`
paths never call `closeHandle`, so an open OS handle *does* remain held
(until `closeHandle` or the destructor runs), contradicting the claim's
side-effect clause. -/
theorem c4_open_handle_on_failure :
    ddsParse exDdsMagicFail = DdsParseResult.fail ∧
      (ddsParseFull exDdsMagicFail).2 = true := by
  decide

/-- C4, amended: for an openable file with an in-capacity level count,
`parse` returns false exactly when the file is too short for magic plus
primary header, the magic mismatches, the file is too short for the
signalled extended header, or the computed total payload exceeds the file
size; on a false return the parser still holds the open file handle (it is
released only by `closeHandle`, which the destructor invokes and which
always leaves no handle behind), while a successful return closes it. -/
theorem c4_parse_failure_conditions (h : DdsHeaderInput) (hopen : h.openOk = true)
    (hcap : ddsLevelsOf h ≤ ddsLevelSizesCapacity) :
    (ddsParse h = .fail ↔
      ddsFailShortPrimary h ∨ ddsFailMagic h ∨ ddsFailShortExtended h ∨ ddsFailPayload h) ∧
    (ddsParse h = .fail → (ddsParseFull h).2 = true) ∧
    (∀ p, ddsParse h = .ok p → (ddsParseFull h).2 = false) ∧
    (∀ b, closeHandle b = false) := by
  refine ⟨?_, ?_, ?_, fun _ => rfl⟩
  · simp only [ddsParse, ddsParseFull, ddsFailShortPrimary, ddsFailMagic,
      ddsFailShortExtended, ddsFailPayload, hopen]
    split_ifs with h1 h2 h3 h4 h5 <;> simp_all
    omega
  · simp only [ddsParse, ddsParseFull, hopen]
    split_ifs <;> simp_all
  · intro p
    simp only [ddsParse, ddsParseFull, hopen]
    split_ifs <;> simp_all

/-- C4 witness: the too-short file fails with the handle left open. -/
theorem c4_parse_failure_conditions_witness :
    ddsParse exDdsShort = DdsParseResult.fail ∧
      (ddsParseFull exDdsShort).2 = true := by
  constructor
  · exact (c4_parse_failure_conditions exDdsShort rfl (by decide)).1.mpr
      (Or.inl (by decide))
  · exact (c4_parse_failure_conditions exDdsShort rfl (by decide)).2.1
      ((c4_parse_failure_conditions exDdsShort rfl (by decide)).1.mpr (Or.inl (by decide)))

theorem ddsParse_ok_inv (h : DdsHeaderInput) (p : DdsParsed) (hp : ddsParse h = .ok p) :
    p = ddsParsedOf h ∧
      p.sizeOfAllLevels * (p.layers * p.faces) + p.dataOffset ≤ p.fileSize := by
  simp only [ddsParse, ddsParseFull] at hp
  split_ifs at hp with h1 h2 h3 h4 h5 h6
  all_goals simp_all
  subst hp
  simp only [ddsParsedOf] at h6 ⊢
  omega

theorem ddsParse_ok_wf (h : DdsHeaderInput) (p : DdsParsed) (hp : ddsParse h = .ok p) :
    p.levelSizes.length = p.levels ∧ p.levelSizes.sum = p.sizeOfAllLevels := by
  obtain ⟨hpe, _⟩ := ddsParse_ok_inv h p hp
  subst hpe
  simp [ddsParsedOf, ddsLevelSizesList]

theorem takeSum_le_sum (L : List Nat) (n : Nat) : (L.take n).sum ≤ L.sum := by
  conv_rhs => rw [← List.sum_take_add_sum_drop L n]
  exact Nat.le_add_right _ _

theorem takeSum_mono (L : List Nat) {i j : Nat} (hij : i ≤ j) :
    (L.take i).sum ≤ (L.take j).sum := by
  rw [show j = i + (j - i) by omega, List.take_add L i (j - i), List.sum_append]
  exact Nat.le_add_right _ _

theorem takeSum_succ (L : List Nat) (i : Nat) (hi : i < L.length) :
    (L.take (i + 1)).sum = (L.take i).sum + L.getD i 0 := by
  have hg : L.getD i 0 = L.get ⟨i, hi⟩ := by
    rw [List.getD_eq_getElem L 0 hi]
    rfl
  rw [List.sum_take_succ L i hi, hg]
  rfl

theorem rangeMap_getD_sum (L : List Nat) (n : Nat) (hn : n ≤ L.length) :
    ((List.range n).map (fun i => L.getD i 0)).sum = (L.take n).sum := by
  induction n with
  | zero => simp
  | succ m ih =>
    rw [List.range_succ, List.map_append, List.sum_append, ih (by omega),
      takeSum_succ L m (by omega)]
    simp

theorem linIdx_lt (l1 f1 l2 f2 F : Nat) (hf1 : f1 < F) (hl : l1 < l2) :
    l1 * F + f1 < l2 * F + f2 := by
  have h1 : l1 * F + f1 < (l1 + 1) * F := by rw [Nat.succ_mul]; omega
  have h2 : (l1 + 1) * F ≤ l2 * F := Nat.mul_le_mul_right F hl
  omega

theorem linIdx_inj (l1 f1 l2 f2 F : Nat) (hf1 : f1 < F) (hf2 : f2 < F)
    (he : l1 * F + f1 = l2 * F + f2) : l1 = l2 ∧ f1 = f2 := by
  rcases Nat.lt_trichotomy l1 l2 with hl | hl | hl
  · exact absurd he (Nat.ne_of_lt (linIdx_lt l1 f1 l2 f2 F hf1 hl))
  · subst hl
    omega
  · exact absurd he.symm (Nat.ne_of_lt (linIdx_lt l2 f2 l1 f1 F hf2 hl))

theorem exists_take_interval (L : List Nat) (y : Nat) (hy : y < L.sum) :
    ∃ k, k < L.length ∧ (L.take k).sum ≤ y ∧ y < (L.take (k + 1)).sum := by
  induction L generalizing y with
  | nil => simp at hy
  | cons a t ih =>
    by_cases hya : y < a
    · refine ⟨0, by simp, by simp, ?_⟩
      simpa using Nat.lt_of_lt_of_le hya (by simp)
    · have hy' : y - a < t.sum := by
        simp only [List.sum_cons] at hy
        omega
      obtain ⟨k, hk, hk1, hk2⟩ := ih (y - a) hy'
      refine ⟨k + 1, by simpa using hk, ?_, ?_⟩
      · rw [List.take_succ_cons, List.sum_cons]
        omega
      · rw [List.take_succ_cons, List.sum_cons]
        omega

theorem placement_fst_eq (p : DdsParsed) (l f v : Nat) (hv : v ≤ p.levelSizes.length) :
    (getDataPlacement p l f v).1 =
      p.dataOffset + (l * p.faces + f) * p.sizeOfAllLevels + (p.levelSizes.take v).sum := by
  simp only [getDataPlacement]
  rw [rangeMap_getD_sum p.levelSizes v hv]

theorem placement_end_eq (p : DdsParsed) (l f v : Nat) (hv : v < p.levelSizes.length) :
    (getDataPlacement p l f v).1 + (getDataPlacement p l f v).2 =
      p.dataOffset + (l * p.faces + f) * p.sizeOfAllLevels + (p.levelSizes.take (v + 1)).sum := by
  rw [placement_fst_eq p l f v (by omega), takeSum_succ p.levelSizes v hv]
  simp only [getDataPlacement]
  omega

theorem placement_disjoint_ordered (p : DdsParsed)
    (hlen : p.levelSizes.length = p.levels) (hsum : p.levelSizes.sum = p.sizeOfAllLevels)
    (l1 f1 v1 l2 f2 v2 : Nat) (hv1 : v1 < p.levels) (hv2 : v2 < p.levels)
    (hord : l1 * p.faces + f1 + 1 ≤ l2 * p.faces + f2 ∨
      (l1 * p.faces + f1 = l2 * p.faces + f2 ∧ v1 < v2)) :
    (getDataPlacement p l1 f1 v1).1 + (getDataPlacement p l1 f1 v1).2 ≤
      (getDataPlacement p l2 f2 v2).1 := by
  rw [placement_end_eq p l1 f1 v1 (by omega), placement_fst_eq p l2 f2 v2 (by omega)]
  rcases hord with hlt | ⟨heq, hv⟩
  · have hS : (p.levelSizes.take (v1 + 1)).sum ≤ p.sizeOfAllLevels := by
      rw [← hsum]
      exact takeSum_le_sum _ _
    have hmul : (l1 * p.faces + f1 + 1) * p.sizeOfAllLevels ≤
        (l2 * p.faces + f2) * p.sizeOfAllLevels :=
      Nat.mul_le_mul_right _ hlt
    rw [Nat.succ_mul] at hmul
    omega
  · have hmono : (p.levelSizes.take (v1 + 1)).sum ≤ (p.levelSizes.take v2).sum :=
      takeSum_mono _ (by omega)
    rw [heq]
    omega

/-- C2: after a successful `parse`, `placement(layer, face, level)` returns
`offset = dataOffset + (layer*faces + face)*sizeOfAllLevels +
sum(levelSizes[0..level))` and `size = levelSizes[level]`; over all in-range
`(layer, face, level)` the byte ranges are pairwise non-overlapping and lie
within `[dataOffset, fileSize)`, and for each fixed `(layer, face)` their
union over the levels is exactly the contiguous `sizeOfAllLevels`-byte
block at `dataOffset + (layer*faces + face)*sizeOfAllLevels`. -/
theorem c2_placement_ranges (h : DdsHeaderInput) (p : DdsParsed)
    (hp : ddsParse h = .ok p) :
    (∀ layer face level, layer < p.layers → face < p.faces → level < p.levels →
      getDataPlacement p layer face level =
        (p.dataOffset + (layer * p.faces + face) * p.sizeOfAllLevels
           + (p.levelSizes.take level).sum,
         p.levelSizes.getD level 0)) ∧
    (∀ l1 f1 v1 l2 f2 v2, l1 < p.layers → f1 < p.faces → v1 < p.levels →
      l2 < p.layers → f2 < p.faces → v2 < p.levels → (l1, f1, v1) ≠ (l2, f2, v2) →
      (getDataPlacement p l1 f1 v1).1 + (getDataPlacement p l1 f1 v1).2 ≤
          (getDataPlacement p l2 f2 v2).1 ∨
        (getDataPlacement p l2 f2 v2).1 + (getDataPlacement p l2 f2 v2).2 ≤
          (getDataPlacement p l1 f1 v1).1) ∧
    (∀ layer face level, layer < p.layers → face < p.faces → level < p.levels →
      p.dataOffset ≤ (getDataPlacement p layer face level).1 ∧
      (getDataPlacement p layer face level).1 + (getDataPlacement p layer face level).2 ≤
        p.fileSize) ∧
    (∀ layer face, layer < p.layers → face < p.faces →
      ∀ x, (∃ level, level < p.levels ∧
              (getDataPlacement p layer face level).1 ≤ x ∧
              x < (getDataPlacement p layer face level).1 +
                    (getDataPlacement p layer face level).2) ↔
        (p.dataOffset + (layer * p.faces + face) * p.sizeOfAllLevels ≤ x ∧
         x < p.dataOffset + (layer * p.faces + face) * p.sizeOfAllLevels
               + p.sizeOfAllLevels)) := by
  obtain ⟨hlen, hsum⟩ := ddsParse_ok_wf h p hp
  obtain ⟨-, hguard⟩ := ddsParse_ok_inv h p hp
  refine ⟨?_, ?_, ?_, ?_⟩
  · intro layer face level _ _ hv
    have := placement_fst_eq p layer face level (by omega)
    simp only [getDataPlacement] at this ⊢
    rw [this]
  · intro l1 f1 v1 l2 f2 v2 hl1 hf1 hv1 hl2 hf2 hv2 hne
    rcases Nat.lt_trichotomy (l1 * p.faces + f1) (l2 * p.faces + f2) with hlt | heq | hgt
    · exact Or.inl (placement_disjoint_ordered p hlen hsum l1 f1 v1 l2 f2 v2 hv1 hv2
        (Or.inl hlt))
    · obtain ⟨hle, hfe⟩ := linIdx_inj l1 f1 l2 f2 p.faces hf1 hf2 heq
      subst hle; subst hfe
      have hvne : v1 ≠ v2 := by
        intro hv
        exact hne (by rw [hv])
      rcases Nat.lt_or_ge v1 v2 with hv | hv
      · exact Or.inl (placement_disjoint_ordered p hlen hsum l1 f1 v1 l1 f1 v2 hv1 hv2
          (Or.inr ⟨rfl, hv⟩))
      · exact Or.inr (placement_disjoint_ordered p hlen hsum l1 f1 v2 l1 f1 v1 hv2 hv1
          (Or.inr ⟨rfl, by omega⟩))
    · exact Or.inr (placement_disjoint_ordered p hlen hsum l2 f2 v2 l1 f1 v1 hv2 hv1
        (Or.inl hgt))
  · intro layer face level hl hf hv
    constructor
    · simp only [getDataPlacement]
      omega
    · rw [placement_end_eq p layer face level (by omega)]
      have hS : (p.levelSizes.take (level + 1)).sum ≤ p.sizeOfAllLevels := by
        rw [← hsum]
        exact takeSum_le_sum _ _
      have hn1 : layer * p.faces + face + 1 ≤ p.layers * p.faces := by
        have h1 : layer * p.faces + face < (layer + 1) * p.faces := by
          rw [Nat.succ_mul]
          omega
        have h2 : (layer + 1) * p.faces ≤ p.layers * p.faces :=
          Nat.mul_le_mul_right _ (by omega)
        omega
      have hmul : (layer * p.faces + face + 1) * p.sizeOfAllLevels ≤
          (p.layers * p.faces) * p.sizeOfAllLevels :=
        Nat.mul_le_mul_right _ hn1
      rw [Nat.succ_mul] at hmul
      have hguard' : (p.layers * p.faces) * p.sizeOfAllLevels + p.dataOffset ≤ p.fileSize := by
        rw [Nat.mul_comm]
        exact hguard
      omega
  · intro layer face hl hf x
    constructor
    · rintro ⟨level, hv, hxl, hxr⟩
      rw [placement_fst_eq p layer face level (by omega)] at hxl
      rw [placement_end_eq p layer face level (by omega)] at hxr
      have hS : (p.levelSizes.take (level + 1)).sum ≤ p.sizeOfAllLevels := by
        rw [← hsum]
        exact takeSum_le_sum _ _
      omega
    · rintro ⟨hxl, hxr⟩
      have hy : x - (p.dataOffset + (layer * p.faces + face) * p.sizeOfAllLevels)
          < p.levelSizes.sum := by
        rw [hsum]
        omega
      obtain ⟨k, hk, hk1, hk2⟩ := exists_take_interval p.levelSizes _ hy
      refine ⟨k, by omega, ?_, ?_⟩
      · rw [placement_fst_eq p layer face k (by omega)]
        omega
      · rw [placement_end_eq p layer face k (by omega)]
        omega

/-- C2 witness: the concrete 3-mip, 2-layer DX10 file: placement of
(layer 1, face 0, level 1) starts at `148 + 21 + 16`, and two distinct
in-range triples have disjoint ranges. -/
theorem c2_placement_ranges_witness :
    getDataPlacement (ddsParsedOf exDdsGood) 1 0 1 =
      (148 + 1 * 21 + 16, 4) ∧
    ((getDataPlacement (ddsParsedOf exDdsGood) 0 0 0).1 +
        (getDataPlacement (ddsParsedOf exDdsGood) 0 0 0).2 ≤
        (getDataPlacement (ddsParsedOf exDdsGood) 1 0 2).1 ∨
      (getDataPlacement (ddsParsedOf exDdsGood) 1 0 2).1 +
        (getDataPlacement (ddsParsedOf exDdsGood) 1 0 2).2 ≤
        (getDataPlacement (ddsParsedOf exDdsGood) 0 0 0).1) := by
  constructor
  · exact ((c2_placement_ranges exDdsGood (ddsParsedOf exDdsGood) (by decide)).1
      1 0 1 (by decide) (by decide) (by decide)).trans (by decide)
  · exact (c2_placement_ranges exDdsGood (ddsParsedOf exDdsGood) (by decide)).2.1
      0 0 0 1 0 2 (by decide) (by decide) (by decide) (by decide) (by decide) (by decide)
      (by decide)

theorem slotAppend_any_self (m : List (Nat × List Str)) (k : Nat) (v : Str) :
    (slotAppend m k v).any (fun pr => pr.2.any (fun e => e == v)) = true := by
  induction m with
  | nil => simp [slotAppend]
  | cons e rest ih =>
    simp only [slotAppend]
    split_ifs with h1 h2
    · simp
    · simp
    · simp [ih]

theorem countRegistered_slotAppend (sp : List (Nat × List Str)) (k : Nat) (n : Str) :
    ((slotAppend sp k n).map (fun pr => pr.2.countP (fun e => e == n))).sum
      = (sp.map (fun pr => pr.2.countP (fun e => e == n))).sum + 1 := by
  induction sp with
  | nil => simp [slotAppend]
  | cons e rest ih =>
    simp only [slotAppend]
    split_ifs with h1 h2
    · simp only [List.map_cons, List.sum_cons]
      simp
      omega
    · simp only [List.map_cons, List.sum_cons, List.countP_append]
      simp
      omega
    · simp only [List.map_cons, List.sum_cons, ih]
      omega

theorem countRegistered_aux (l : List (Nat × List Str)) (n : Str)
    (h : l.any (fun pr => pr.2.any (fun e => e == n)) = false) :
    (l.map (fun pr => pr.2.countP (fun e => e == n))).sum = 0 := by
  induction l with
  | nil => rfl
  | cons e rest ih =>
    simp only [List.any_cons, Bool.or_eq_false_iff] at h
    simp only [List.map_cons, List.sum_cons, ih h.2]
    have : e.2.countP (fun s => s == n) = 0 := by
      rw [List.countP_eq_zero]
      intro a ha hae
      have : e.2.any (fun s => s == n) = true := List.any_of_mem ha hae
      rw [h.1] at this
      exact Bool.false_ne_true this
    omega

theorem countRegistered_of_not_registered (st : AssetDataManagerState) (n : Str)
    (h : pathRegistered st n = false) : countRegistered st n = 0 :=
  countRegistered_aux st.searchPaths n h

theorem addSearchPath_registered_noop (env : RtxEnv) (st : AssetDataManagerState)
    (priority : Nat) (path : Str)
    (h : pathRegistered st (normalizeSearchPath env path) = true) :
    addSearchPath env st priority path = st := by
  simp [addSearchPath, h]

theorem addSearchPath_registers (env : RtxEnv) (st : AssetDataManagerState)
    (priority : Nat) (path : Str) :
    pathRegistered (addSearchPath env st priority path)
      (normalizeSearchPath env path) = true := by
  by_cases h : pathRegistered st (normalizeSearchPath env path) = true
  · rw [addSearchPath_registered_noop env st priority path h]
    exact h
  · unfold addSearchPath
    rw [if_neg h]
    by_cases hio : env.rtxIoEnabled <;>
      simp only [hio, if_true, if_false, Bool.false_eq_true] <;>
      exact slotAppend_any_self st.searchPaths priority (normalizeSearchPath env path)

/-- C6: `addSearchPath` with an already-registered normalized path (under
*any* priority) leaves the whole state unchanged — no registry entry, no
directory scan, no package mounted; every call registers the normalized
path, so a repeated add (any priorities) is a no-op, yielding exactly one
registry entry, and the first add records at most one directory scan
(exactly one when RTX IO is on and the directory exists). -/
theorem c6_addSearchPath_dedupe (env : RtxEnv) (st : AssetDataManagerState)
    (priority : Nat) (path : Str) :
    (pathRegistered st (normalizeSearchPath env path) = true →
      addSearchPath env st priority path = st) ∧
    pathRegistered (addSearchPath env st priority path)
      (normalizeSearchPath env path) = true ∧
    (∀ priority2, addSearchPath env (addSearchPath env st priority path) priority2 path
      = addSearchPath env st priority path) ∧
    (pathRegistered st (normalizeSearchPath env path) = false →
      countRegistered (addSearchPath env st priority path)
          (normalizeSearchPath env path) = 1 ∧
      (addSearchPath env st priority path).scannedDirs
        = st.scannedDirs ++
            (if env.rtxIoEnabled = true ∧ env.fsExists path = true then [path] else [])) := by
  refine ⟨addSearchPath_registered_noop env st priority path, addSearchPath_registers env st priority path, ?_, ?_⟩
  · intro priority2
    exact addSearchPath_registered_noop env (addSearchPath env st priority path) priority2
      path (addSearchPath_registers env st priority path)
  · intro h
    constructor
    · have h0 := countRegistered_of_not_registered st (normalizeSearchPath env path) h
      unfold countRegistered at h0 ⊢
      unfold addSearchPath
      rw [if_neg (by rw [h]; exact Bool.false_ne_true)]
      by_cases hio : env.rtxIoEnabled <;>
        simp only [hio, if_true, if_false, Bool.false_eq_true] <;>
        rw [countRegistered_slotAppend, h0]
    · unfold addSearchPath
      rw [if_neg (by rw [h]; exact Bool.false_ne_true)]
      by_cases hio : env.rtxIoEnabled <;> simp [hio]

/-- C6 witness: adding `C:\a` twice (priorities 1 then 2) to an empty
manager registers it once and scans it once. -/
theorem c6_addSearchPath_dedupe_witness :
    addSearchPath exEnvB (addSearchPath exEnvB {} 1 exPathA) 2 exPathA
      = addSearchPath exEnvB {} 1 exPathA ∧
    countRegistered (addSearchPath exEnvB {} 1 exPathA)
      (normalizeSearchPath exEnvB exPathA) = 1 ∧
    (addSearchPath exEnvB {} 1 exPathA).scannedDirs = [exPathA] := by
  refine ⟨(c6_addSearchPath_dedupe exEnvB {} 1 exPathA).2.2.1 2, ?_, ?_⟩
  · exact ((c6_addSearchPath_dedupe exEnvB {} 1 exPathA).2.2.2 (by decide)).1
  · exact (((c6_addSearchPath_dedupe exEnvB {} 1 exPathA).2.2.2 (by decide)).2).trans
      (by decide)

theorem strLtB_trans (a : Str) : ∀ b c, strLtB a b = true → strLtB b c = true →
    strLtB a c = true := by
  induction a with
  | nil =>
    intro b c hab hbc
    cases b with
    | nil => simp [strLtB] at hab
    | cons bb bs =>
      cases c with
      | nil => simp [strLtB] at hbc
      | cons cc cs => simp [strLtB]
  | cons aa as ih =>
    intro b c hab hbc
    cases b with
    | nil => simp [strLtB] at hab
    | cons bb bs =>
      cases c with
      | nil => simp [strLtB] at hbc
      | cons cc cs =>
        simp only [strLtB] at hab hbc ⊢
        rcases lt_trichotomy aa bb with h1 | h1 | h1
        · rcases lt_trichotomy bb cc with h2 | h2 | h2
          · simp [lt_trans h1 h2]
          · subst h2
            simp [h1]
          · rw [if_neg (lt_asymm h2), if_pos h2] at hbc
            exact absurd hbc (by simp)
        · subst h1
          rw [if_neg (lt_irrefl aa), if_neg (lt_irrefl aa)] at hab
          rcases lt_trichotomy aa cc with h2 | h2 | h2
          · simp [h2]
          · subst h2
            rw [if_neg (lt_irrefl aa), if_neg (lt_irrefl aa)] at hbc ⊢
            exact ih bs cs hab hbc
          · rw [if_neg (lt_asymm h2), if_pos h2] at hbc
            exact absurd hbc (by simp)
        · rw [if_neg (lt_asymm h1), if_pos h1] at hab
          exact absurd hab (by simp)

theorem strLtB_total (a : Str) : ∀ b, a = b ∨ strLtB a b = true ∨ strLtB b a = true := by
  induction a with
  | nil =>
    intro b
    cases b with
    | nil => exact Or.inl rfl
    | cons bb bs => exact Or.inr (Or.inl (by simp [strLtB]))
  | cons aa as ih =>
    intro b
    cases b with
    | nil => exact Or.inr (Or.inr (by simp [strLtB]))
    | cons bb bs =>
      rcases lt_trichotomy aa bb with h1 | h1 | h1
      · exact Or.inr (Or.inl (by simp [strLtB, h1]))
      · subst h1
        rcases ih bs with h2 | h2 | h2
        · exact Or.inl (by rw [h2])
        · exact Or.inr (Or.inl (by simp [strLtB, lt_irrefl, h2]))
        · exact Or.inr (Or.inr (by simp [strLtB, lt_irrefl, h2]))
      · exact Or.inr (Or.inr (by simp [strLtB, h1, lt_asymm h1]))

theorem mem_insortByName (e : Str) : ∀ (l : List Str) (x : Str),
    x ∈ insortByName e l → x = e ∨ x ∈ l := by
  intro l
  induction l with
  | nil =>
    intro x hx
    simpa [insortByName] using hx
  | cons y ys ih =>
    intro x hx
    simp only [insortByName] at hx
    split_ifs at hx with h1 h2
    · rcases List.mem_cons.mp hx with h | h
      · exact Or.inl h
      · exact Or.inr h
    · exact Or.inr hx
    · rcases List.mem_cons.mp hx with h | h
      · exact Or.inr (by simp [h])
      · rcases ih x h with h' | h'
        · exact Or.inl h'
        · exact Or.inr (List.mem_cons_of_mem y h')

theorem insortByName_sorted (e : Str) : ∀ (l : List Str),
    l.Pairwise (fun a b => strLtB a b = true) →
    (insortByName e l).Pairwise (fun a b => strLtB a b = true) := by
  intro l
  induction l with
  | nil =>
    intro _
    simp [insortByName]
  | cons y ys ih =>
    intro hs
    rcases List.pairwise_cons.mp hs with ⟨hy, hys⟩
    simp only [insortByName]
    split_ifs with h1 h2
    · refine List.pairwise_cons.mpr ⟨?_, hs⟩
      intro b hb
      rcases List.mem_cons.mp hb with h | h
      · rw [h]
        exact h1
      · exact strLtB_trans e y b h1 (hy b h)
    · exact hs
    · refine List.pairwise_cons.mpr ⟨?_, ih hys⟩
      intro b hb
      rcases mem_insortByName e ys b hb with h | h
      · subst h
        rcases strLtB_total y b with h' | h' | h'
        · exact absurd h'.symm h2
        · exact h'
        · exact absurd h' (by simp [h1])
      · exact hy b h

theorem foldl_insort_sorted (cond : Str → Bool) :
    ∀ (entries : List Str) (acc : List Str),
      acc.Pairwise (fun a b => strLtB a b = true) →
      (entries.foldl (fun acc e => if cond e then insortByName e acc else acc)
          acc).Pairwise (fun a b => strLtB a b = true) := by
  intro entries
  induction entries with
  | nil =>
    intro acc hacc
    exact hacc
  | cons e rest ih =>
    intro acc hacc
    simp only [List.foldl_cons]
    by_cases hc : cond e
    · rw [if_pos hc]
      exact ih _ (insortByName_sorted e acc hacc)
    · rw [if_neg hc]
      exact ih _ hacc

theorem scanDir_sorted (env : RtxEnv) (path : Str) :
    (scanDir env path).Pairwise (fun a b => strLtB a b = true) := by
  unfold scanDir
  exact foldl_insort_sorted _ (env.dirEntries path) [] (by simp)

theorem slotAppend_keys_mem {β : Type} (k : Nat) (v : β) :
    ∀ (m : List (Nat × List β)) (x : Nat),
      x ∈ (slotAppend m k v).map Prod.fst → x = k ∨ x ∈ m.map Prod.fst := by
  intro m
  induction m with
  | nil =>
    intro x hx
    simpa [slotAppend] using hx
  | cons e rest ih =>
    intro x hx
    simp only [slotAppend] at hx
    split_ifs at hx with h1 h2
    · rcases List.mem_cons.mp hx with h | h
      · exact Or.inl h
      · exact Or.inr h
    · rcases List.mem_cons.mp hx with h | h
      · exact Or.inr (by simp [h])
      · exact Or.inr (List.mem_cons_of_mem _ h)
    · rcases List.mem_cons.mp hx with h | h
      · exact Or.inr (by simp [h])
      · rcases ih x h with h' | h'
        · exact Or.inl h'
        · exact Or.inr (List.mem_cons_of_mem _ h')

theorem slotAppend_keys_sorted {β : Type} (k : Nat) (v : β) :
    ∀ (m : List (Nat × List β)),
      (m.map Prod.fst).Pairwise (· < ·) →
      ((slotAppend m k v).map Prod.fst).Pairwise (· < ·) := by
  intro m
  induction m with
  | nil =>
    intro _
    simp [slotAppend]
  | cons e rest ih =>
    intro hs
    simp only [List.map_cons] at hs
    rcases List.pairwise_cons.mp hs with ⟨he, hrest⟩
    simp only [slotAppend]
    split_ifs with h1 h2
    · simp only [List.map_cons]
      refine List.pairwise_cons.mpr ⟨?_, hs⟩
      intro b hb
      rcases List.mem_cons.mp hb with h | h
      · omega
      · have := he b h
        omega
    · simp only [List.map_cons]
      exact List.pairwise_cons.mpr ⟨he, hrest⟩
    · simp only [List.map_cons]
      refine List.pairwise_cons.mpr ⟨?_, ih hrest⟩
      intro b hb
      rcases slotAppend_keys_mem k v rest b hb with h | h
      · omega
      · exact he b h

theorem slotAppend_entry_cases {β : Type} (k : Nat) (v : β) :
    ∀ (m : List (Nat × List β)) (pr : Nat × List β) (x : β),
      pr ∈ slotAppend m k v → x ∈ pr.2 → (∃ pr' ∈ m, x ∈ pr'.2) ∨ x = v := by
  intro m
  induction m with
  | nil =>
    intro pr x hpr hx
    simp only [slotAppend, List.mem_singleton] at hpr
    subst hpr
    simp only [List.mem_singleton] at hx
    exact Or.inr hx
  | cons e rest ih =>
    intro pr x hpr hx
    simp only [slotAppend] at hpr
    split_ifs at hpr with h1 h2
    · rcases List.mem_cons.mp hpr with h | h
      · subst h
        simp only [List.mem_singleton] at hx
        exact Or.inr hx
      · exact Or.inl ⟨pr, h, hx⟩
    · rcases List.mem_cons.mp hpr with h | h
      · subst h
        simp only [List.mem_append, List.mem_singleton] at hx
        rcases hx with h | h
        · exact Or.inl ⟨e, by simp, h⟩
        · exact Or.inr h
      · exact Or.inl ⟨pr, List.mem_cons_of_mem _ h, hx⟩
    · rcases List.mem_cons.mp hpr with h | h
      · refine Or.inl ⟨e, by simp, ?_⟩
        rw [h] at hx
        simpa using hx
      · rcases ih pr x h hx with ⟨pr', hpr', hx'⟩ | h'
        · exact Or.inl ⟨pr', List.mem_cons_of_mem _ hpr', hx'⟩
        · exact Or.inr h'

theorem lookupSlot_not_mem {β : Type} :
    ∀ (m : List (Nat × List β)) (k : Nat),
      (∀ key ∈ m.map Prod.fst, key ≠ k) → lookupSlot m k = [] := by
  intro m
  induction m with
  | nil =>
    intro k _
    rfl
  | cons e rest ih =>
    intro k h
    simp only [lookupSlot]
    rw [if_neg (fun he => h e.1 (by simp) he.symm)]
    exact ih k (fun key hk => h key (List.mem_cons_of_mem _ hk))

theorem lookupSlot_slotAppend_self {β : Type} (k : Nat) (v : β) :
    ∀ (m : List (Nat × List β)),
      (m.map Prod.fst).Pairwise (· < ·) →
      lookupSlot (slotAppend m k v) k = lookupSlot m k ++ [v] := by
  intro m
  induction m with
  | nil =>
    intro _
    simp [slotAppend, lookupSlot]
  | cons e rest ih =>
    intro hs
    simp only [List.map_cons] at hs
    rcases List.pairwise_cons.mp hs with ⟨he, hrest⟩
    simp only [slotAppend]
    split_ifs with h1 h2
    · have hne : ¬ (k = e.1) := by omega
      have hr0 : lookupSlot rest k = ([] : List β) :=
        lookupSlot_not_mem rest k (fun key hk => by have := he key hk; omega)
      show lookupSlot ((k, [v]) :: e :: rest) k = lookupSlot (e :: rest) k ++ [v]
      rw [show lookupSlot ((k, [v]) :: e :: rest) k = [v] from by
        simp [lookupSlot]]
      rw [show lookupSlot (e :: rest) k = [] from by
        simp only [lookupSlot, if_neg hne]
        exact hr0]
      rfl
    · show lookupSlot ((e.1, e.2 ++ [v]) :: rest) k = lookupSlot (e :: rest) k ++ [v]
      simp [lookupSlot, h2]
    · have hne : ¬ (k = e.1) := by omega
      show lookupSlot (e :: slotAppend rest k v) k = lookupSlot (e :: rest) k ++ [v]
      simp only [lookupSlot, if_neg hne]
      exact ih hrest

theorem entryCandidates_key (fl : Str) (pr : Nat) (ent : Str × List Str)
    (c : Nat × Str × Str) (hc : c ∈ entryCandidates fl pr ent) : c.1 = pr := by
  unfold entryCandidates at hc
  split_ifs at hc with h
  · rcases List.mem_map.mp hc with ⟨p, _, hp⟩
    rw [← hp]
  · simp at hc

theorem blockCandidates_key (fl : Str) (pr : Nat × List (Str × List Str))
    (c : Nat × Str × Str)
    (hc : c ∈ (pr.2.reverse).flatMap (entryCandidates fl pr.1)) : c.1 = pr.1 := by
  rcases List.mem_flatMap.mp hc with ⟨ent, _, hent⟩
  exact entryCandidates_key fl pr.1 ent c hent

theorem candidates_pairwise_aux (fl : Str) :
    ∀ l : List (Nat × List (Str × List Str)),
      (l.map Prod.fst).Pairwise (fun a b => b < a) →
      ((l.flatMap (fun pr => (pr.2.reverse).flatMap (entryCandidates fl pr.1))).map
          (fun c => c.1)).Pairwise (fun a b => b ≤ a) := by
  intro l
  induction l with
  | nil =>
    intro _
    simp
  | cons a t ih =>
    intro hs
    simp only [List.map_cons] at hs
    rcases List.pairwise_cons.mp hs with ⟨ha, ht⟩
    rw [List.flatMap_cons, List.map_append, List.pairwise_append]
    refine ⟨?_, ih ht, ?_⟩
    · apply List.pairwise_of_forall_mem_list
      intro x hx y hy
      rcases List.mem_map.mp hx with ⟨cx, hcx, hex⟩
      rcases List.mem_map.mp hy with ⟨cy, hcy, hey⟩
      rw [← hex, ← hey, blockCandidates_key fl a cx hcx, blockCandidates_key fl a cy hcy]
    · intro x hx y hy
      rcases List.mem_map.mp hx with ⟨cx, hcx, hex⟩
      rcases List.mem_map.mp hy with ⟨cy, hcy, hey⟩
      rcases List.mem_flatMap.mp hcy with ⟨b, hb, hcyb⟩
      have hkey : cy.1 = b.1 := blockCandidates_key fl b cy hcyb
      have hblt : b.1 < a.1 := ha b.1 (List.mem_map.mpr ⟨b, hb, rfl⟩)
      rw [← hex, ← hey, blockCandidates_key fl a cx hcx, hkey]
      omega

theorem pkgCandidates_priorities (st : AssetDataManagerState) (fl : Str)
    (hinv : (st.packageSets.map Prod.fst).Pairwise (· < ·)) :
    ((pkgCandidates st fl).map (fun c => c.1)).Pairwise (fun a b => b ≤ a) := by
  unfold pkgCandidates
  apply candidates_pairwise_aux
  rw [List.map_reverse]
  exact List.pairwise_reverse.mpr hinv

theorem stateInv_addSearchPath (env : RtxEnv) (st : AssetDataManagerState)
    (hinv : stateInv st) (priority : Nat) (path : Str) :
    stateInv (addSearchPath env st priority path) := by
  by_cases hreg : pathRegistered st (normalizeSearchPath env path) = true
  · rw [addSearchPath_registered_noop env st priority path hreg]
    exact hinv
  · unfold addSearchPath
    rw [if_neg hreg]
    by_cases hio : env.rtxIoEnabled
    · rw [if_pos hio]
      refine ⟨slotAppend_keys_sorted _ _ _ hinv.1, ?_⟩
      intro pr hpr ent hent
      rcases slotAppend_entry_cases _ _ st.packageSets pr ent hpr hent with
        ⟨pr', hpr', hent'⟩ | he
      · exact hinv.2 pr' hpr' ent hent'
      · rw [he]
        exact scanDir_sorted env path
    · rw [if_neg hio]
      exact hinv

theorem addSearchPath_recency (env : RtxEnv) (st : AssetDataManagerState)
    (priority : Nat) (path : Str)
    (hkeys : (st.packageSets.map Prod.fst).Pairwise (· < ·))
    (hreg : pathRegistered st (normalizeSearchPath env path) = false)
    (hio : env.rtxIoEnabled = true) :
    lookupSlot (addSearchPath env st priority path).packageSets priority
      = lookupSlot st.packageSets priority
          ++ [(normalizeSearchPath env path, scanDir env path)] := by
  unfold addSearchPath
  rw [if_neg (by rw [hreg]; exact Bool.false_ne_true), if_pos hio]
  exact lookupSlot_slotAppend_self _ _ st.packageSets hkeys

theorem mem_matchedBases_intro (st : AssetDataManagerState) (fl : Str)
    (pr : Nat × List (Str × List Str)) (ent : Str × List Str)
    (hpr : pr ∈ st.packageSets.reverse) (hent : ent ∈ pr.2)
    (hm : ent.1.length < fl.length ∧ ent.1.isPrefixOf fl = true) :
    ent.1 ∈ matchedBases st fl := by
  unfold matchedBases
  exact List.mem_flatMap.mpr
    ⟨pr, hpr, List.mem_filterMap.mpr ⟨ent, List.mem_reverse.mpr hent, by rw [if_pos hm]⟩⟩

theorem mem_matchedBases_elim (st : AssetDataManagerState) (fl : Str) (b : Str)
    (hb : b ∈ matchedBases st fl) :
    ∃ pr ∈ st.packageSets.reverse, ∃ ent ∈ pr.2.reverse,
      ent.1 = b ∧ ent.1.length < fl.length ∧ ent.1.isPrefixOf fl = true := by
  unfold matchedBases at hb
  rcases List.mem_flatMap.mp hb with ⟨pr, hpr, hb2⟩
  rcases List.mem_filterMap.mp hb2 with ⟨ent, hent, hf⟩
  by_cases hm : ent.1.length < fl.length ∧ ent.1.isPrefixOf fl = true
  · rw [if_pos hm] at hf
    exact ⟨pr, hpr, ent, hent, Option.some.inj hf, hm⟩
  · rw [if_neg hm] at hf
    exact absurd hf (by simp)

theorem probePackages_fst (env : RtxEnv) (rel : Str) :
    ∀ l : List Str,
      (probePackages env rel l).1 =
        l.findSome? (fun p => (env.pkgFindAsset p rel).map (fun i => (p, i))) := by
  intro l
  induction l with
  | nil => rfl
  | cons p rest ih =>
    cases hf : env.pkgFindAsset p rel <;>
      simp [probePackages, List.findSome?_cons, hf, ih]

theorem searchEntries_fst (env : RtxEnv) (filename fl : Str) (pr : Nat) :
    ∀ ents : List (Str × List Str),
      (∀ ent ∈ ents, ent.1.length < fl.length ∧ ent.1.isPrefixOf fl = true →
        ent.1.length ≤ filename.length) →
      (searchEntries env filename fl ents).1 =
        ((ents.flatMap (entryCandidates fl pr)).findSome? (candidateHit env filename)).map
          (fun pi => FindOutcome.found (.packaged pi.1 pi.2)) := by
  intro ents
  induction ents with
  | nil =>
    intro _
    rfl
  | cons ent rest ih =>
    intro hsub
    have hrest := fun e he hm => hsub e (List.mem_cons_of_mem _ he) hm
    rw [List.flatMap_cons, List.findSome?_append]
    by_cases hm : ent.1.length < fl.length ∧ ent.1.isPrefixOf fl = true
    · have hle : ent.1.length ≤ filename.length := hsub ent (by simp) hm
      have hsubstr : substrFrom filename ent.1.length
          = some (filename.drop ent.1.length) := by
        unfold substrFrom
        rw [if_pos hle]
      have hcand : entryCandidates fl pr ent
          = ent.2.reverse.map (fun p => (pr, ent.1, p)) := by
        unfold entryCandidates
        rw [if_pos hm]
      have hhit : ((ent.2.reverse.map (fun p => (pr, ent.1, p))).findSome?
            (candidateHit env filename))
          = (ent.2.reverse).findSome?
              (fun p => (env.pkgFindAsset p (filename.drop ent.1.length)).map
                (fun i => (p, i))) := by
        rw [List.findSome?_map]
        rfl
      rcases hpp : probePackages env (filename.drop ent.1.length) ent.2.reverse
        with ⟨r1, log⟩
      have hr1 : r1 = (ent.2.reverse).findSome?
          (fun p => (env.pkgFindAsset p (filename.drop ent.1.length)).map
            (fun i => (p, i))) := by
        rw [← probePackages_fst env _ ent.2.reverse, hpp]
      cases r1 with
      | some pi =>
        simp only [searchEntries, if_pos hm, hsubstr, hpp]
        rw [hcand, hhit, ← hr1]
        rfl
      | none =>
        simp only [searchEntries, if_pos hm, hsubstr, hpp]
        rw [hcand, hhit, ← hr1]
        simp only [Option.none_or]
        exact ih hrest
    · have hcand : entryCandidates fl pr ent = [] := by
        unfold entryCandidates
        rw [if_neg hm]
      simp only [searchEntries, if_neg hm]
      rw [hcand]
      simp only [List.findSome?_nil, Option.none_or]
      exact ih hrest

theorem searchPriorities_fst (env : RtxEnv) (filename fl : Str) :
    ∀ prs : List (Nat × List (Str × List Str)),
      (∀ pr ∈ prs, ∀ ent ∈ pr.2,
        ent.1.length < fl.length ∧ ent.1.isPrefixOf fl = true →
        ent.1.length ≤ filename.length) →
      (searchPriorities env filename fl prs).1 =
        ((prs.flatMap (fun pr => (pr.2.reverse).flatMap (entryCandidates fl pr.1))).findSome?
            (candidateHit env filename)).map
          (fun pi => FindOutcome.found (.packaged pi.1 pi.2)) := by
  intro prs
  induction prs with
  | nil =>
    intro _
    rfl
  | cons pr rest ih =>
    intro hsub
    have hme : ∀ ent ∈ pr.2.reverse,
        ent.1.length < fl.length ∧ ent.1.isPrefixOf fl = true →
        ent.1.length ≤ filename.length :=
      fun ent he hm => hsub pr (by simp) ent (List.mem_reverse.mp he) hm
    have hfst := searchEntries_fst env filename fl pr.1 pr.2.reverse hme
    rw [List.flatMap_cons, List.findSome?_append]
    rcases hse : searchEntries env filename fl pr.2.reverse with ⟨r1, log⟩
    have hr1 : r1 = ((pr.2.reverse.flatMap (entryCandidates fl pr.1)).findSome?
        (candidateHit env filename)).map
          (fun pi => FindOutcome.found (.packaged pi.1 pi.2)) := by
      rw [← hfst, hse]
    cases r1 with
    | some out =>
      simp only [searchPriorities, hse]
      cases hfs : (pr.2.reverse.flatMap (entryCandidates fl pr.1)).findSome?
          (candidateHit env filename) with
      | some pi =>
        rw [hfs] at hr1
        simp at hr1
        simp [hr1]
      | none =>
        rw [hfs] at hr1
        simp at hr1
    | none =>
      simp only [searchPriorities, hse]
      cases hfs : (pr.2.reverse.flatMap (entryCandidates fl pr.1)).findSome?
          (candidateHit env filename) with
      | some pi =>
        rw [hfs] at hr1
        simp at hr1
      | none =>
        simp only [Option.none_or]
        exact ih (fun p hp ent he hm => hsub p (List.mem_cons_of_mem _ hp) ent he hm)

theorem probePackages_log_mem (env : RtxEnv) (rel : Str) :
    ∀ (l : List Str) (p r : Str),
      Attempt.pkgProbe p r ∈ (probePackages env rel l).2 → r = rel ∧ p ∈ l := by
  intro l
  induction l with
  | nil =>
    intro p r h
    simp [probePackages] at h
  | cons q rest ih =>
    intro p r h
    cases hf : env.pkgFindAsset q rel with
    | some i =>
      simp only [probePackages, hf] at h
      simp only [List.mem_singleton, Attempt.pkgProbe.injEq] at h
      exact ⟨h.2, by simp [h.1]⟩
    | none =>
      simp only [probePackages, hf] at h
      rcases List.mem_cons.mp h with h1 | h2
      · rcases Attempt.pkgProbe.injEq p r q rel ▸ h1 with ⟨hp, hr⟩
        exact ⟨hr, by simp [hp]⟩
      · rcases ih p r h2 with ⟨hr, hp⟩
        exact ⟨hr, List.mem_cons_of_mem _ hp⟩

theorem searchEntries_log_mem (env : RtxEnv) (filename fl : Str) :
    ∀ (ents : List (Str × List Str)) (p r : Str),
      Attempt.pkgProbe p r ∈ (searchEntries env filename fl ents).2 →
      ∃ ent ∈ ents, (ent.1.length < fl.length ∧ ent.1.isPrefixOf fl = true) ∧
        r = filename.drop ent.1.length ∧ ent.1.length ≤ filename.length := by
  intro ents
  induction ents with
  | nil =>
    intro p r h
    simp [searchEntries] at h
  | cons ent rest ih =>
    intro p r h
    by_cases hm : ent.1.length < fl.length ∧ ent.1.isPrefixOf fl = true
    · cases hsub : substrFrom filename ent.1.length with
      | none =>
        simp only [searchEntries, if_pos hm, hsub] at h
        simp at h
      | some rel =>
        have hdrop : rel = filename.drop ent.1.length ∧ ent.1.length ≤ filename.length := by
          unfold substrFrom at hsub
          split_ifs at hsub with hh
          exact ⟨(Option.some.inj hsub).symm, hh⟩
        rcases hpp : probePackages env rel ent.2.reverse with ⟨r1, log⟩
        have hplog : ∀ hmem : Attempt.pkgProbe p r ∈ log,
            r = rel ∧ p ∈ ent.2.reverse := by
          intro hmem
          exact probePackages_log_mem env rel ent.2.reverse p r (by rw [hpp]; exact hmem)
        cases r1 with
        | some pi =>
          simp only [searchEntries, if_pos hm, hsub, hpp] at h
          rcases hplog h with ⟨hr, _⟩
          exact ⟨ent, by simp, hm, hr.trans hdrop.1, hdrop.2⟩
        | none =>
          simp only [searchEntries, if_pos hm, hsub, hpp] at h
          rcases List.mem_append.mp h with h1 | h2
          · rcases hplog h1 with ⟨hr, _⟩
            exact ⟨ent, by simp, hm, hr.trans hdrop.1, hdrop.2⟩
          · rcases ih p r h2 with ⟨e', he', rest'⟩
            exact ⟨e', List.mem_cons_of_mem _ he', rest'⟩
    · simp only [searchEntries, if_neg hm] at h
      rcases ih p r h with ⟨e', he', rest'⟩
      exact ⟨e', List.mem_cons_of_mem _ he', rest'⟩

theorem searchPriorities_log_mem (env : RtxEnv) (filename fl : Str) :
    ∀ (prs : List (Nat × List (Str × List Str))) (p r : Str),
      Attempt.pkgProbe p r ∈ (searchPriorities env filename fl prs).2 →
      ∃ pr ∈ prs, ∃ ent ∈ pr.2.reverse,
        (ent.1.length < fl.length ∧ ent.1.isPrefixOf fl = true) ∧
        r = filename.drop ent.1.length ∧ ent.1.length ≤ filename.length := by
  intro prs
  induction prs with
  | nil =>
    intro p r h
    simp [searchPriorities] at h
  | cons pr rest ih =>
    intro p r h
    rcases hse : searchEntries env filename fl pr.2.reverse with ⟨r1, log⟩
    have hlogmem : ∀ hmem : Attempt.pkgProbe p r ∈ log,
        ∃ ent ∈ pr.2.reverse,
          (ent.1.length < fl.length ∧ ent.1.isPrefixOf fl = true) ∧
          r = filename.drop ent.1.length ∧ ent.1.length ≤ filename.length := by
      intro hmem
      exact searchEntries_log_mem env filename fl pr.2.reverse p r (by rw [hse]; exact hmem)
    cases r1 with
    | some out =>
      simp only [searchPriorities, hse] at h
      rcases hlogmem h with ⟨e', he', rest'⟩
      exact ⟨pr, by simp, e', he', rest'⟩
    | none =>
      simp only [searchPriorities, hse] at h
      rcases List.mem_append.mp h with h1 | h2
      · rcases hlogmem h1 with ⟨e', he', rest'⟩
        exact ⟨pr, by simp, e', he', rest'⟩
      · rcases ih p r h2 with ⟨pr', hpr', rest'⟩
        exact ⟨pr', List.mem_cons_of_mem _ hpr', rest'⟩

theorem searchEntries_thrown (env : RtxEnv) (filename fl : Str) :
    ∀ ents : List (Str × List Str),
      (searchEntries env filename fl ents).1 = some .thrown →
      ∃ ent ∈ ents, (ent.1.length < fl.length ∧ ent.1.isPrefixOf fl = true) ∧
        filename.length < ent.1.length := by
  intro ents
  induction ents with
  | nil =>
    intro h
    simp [searchEntries] at h
  | cons ent rest ih =>
    intro h
    by_cases hm : ent.1.length < fl.length ∧ ent.1.isPrefixOf fl = true
    · cases hsub : substrFrom filename ent.1.length with
      | none =>
        have hlen : filename.length < ent.1.length := by
          unfold substrFrom at hsub
          split_ifs at hsub with hh
          omega
        exact ⟨ent, by simp, hm, hlen⟩
      | some rel =>
        rcases hpp : probePackages env rel ent.2.reverse with ⟨r1, log⟩
        cases r1 with
        | some pi =>
          simp only [searchEntries, if_pos hm, hsub, hpp] at h
          simp at h
        | none =>
          simp only [searchEntries, if_pos hm, hsub, hpp] at h
          rcases ih h with ⟨e', he', rest'⟩
          exact ⟨e', List.mem_cons_of_mem _ he', rest'⟩
    · simp only [searchEntries, if_neg hm] at h
      rcases ih h with ⟨e', he', rest'⟩
      exact ⟨e', List.mem_cons_of_mem _ he', rest'⟩

theorem searchPriorities_thrown (env : RtxEnv) (filename fl : Str) :
    ∀ prs : List (Nat × List (Str × List Str)),
      (searchPriorities env filename fl prs).1 = some .thrown →
      ∃ pr ∈ prs, ∃ ent ∈ pr.2.reverse,
        (ent.1.length < fl.length ∧ ent.1.isPrefixOf fl = true) ∧
        filename.length < ent.1.length := by
  intro prs
  induction prs with
  | nil =>
    intro h
    simp [searchPriorities] at h
  | cons pr rest ih =>
    intro h
    rcases hse : searchEntries env filename fl pr.2.reverse with ⟨r1, log⟩
    cases r1 with
    | some out =>
      simp only [searchPriorities, hse] at h
      have hout : out = FindOutcome.thrown := by
        simpa using h
      have : (searchEntries env filename fl pr.2.reverse).1 = some .thrown := by
        rw [hse, hout]
      rcases searchEntries_thrown env filename fl pr.2.reverse this with ⟨e', he', rest'⟩
      exact ⟨pr, by simp, e', he', rest'⟩
    | none =>
      simp only [searchPriorities, hse] at h
      rcases ih h with ⟨pr', hpr', rest'⟩
      exact ⟨pr', List.mem_cons_of_mem _ hpr', rest'⟩

theorem findAsset_gate (env : RtxEnv) (st : AssetDataManagerState) (filename : Str)
    (h1 : isDdsFile filename = false) :
    findAssetFull env st filename = (.nullResult, []) := by
  unfold findAssetFull
  rw [if_pos h1]

theorem findAsset_dds_hit (env : RtxEnv) (st : AssetDataManagerState) (filename : Str)
    (h1 : ¬ isDdsFile filename = false)
    (h2 : env.usePartialDdsLoader ∧ env.ddsLoadOk filename = true) :
    findAssetFull env st filename = (.found (.ddsTexture filename), [.ddsLoad filename]) := by
  unfold findAssetFull
  rw [if_neg h1]
  simp only [if_pos h2, if_pos h2.1]

theorem findAsset_pkg_branch (env : RtxEnv) (st : AssetDataManagerState) (filename : Str)
    (h1 : ¬ isDdsFile filename = false)
    (h2 : ¬ (env.usePartialDdsLoader ∧ env.ddsLoadOk filename = true))
    (h3 : env.rtxIoEnabled ∧ st.packageSets ≠ []) :
    findAsset env st filename =
      match (searchPriorities env filename (toLowerStr (env.abspath filename))
          st.packageSets.reverse).1 with
      | some out => out
      | none =>
        if env.gliLoadOk filename then FindOutcome.found (.gliTexture filename)
        else FindOutcome.nullResult := by
  unfold findAsset findAssetFull
  rw [if_neg h1, if_neg h2, if_pos h3]
  rcases hsp : searchPriorities env filename (toLowerStr (env.abspath filename))
    st.packageSets.reverse with ⟨r1, log⟩
  cases r1 with
  | some out => simp
  | none =>
    by_cases hg : env.gliLoadOk filename <;> simp [hg]

theorem findAsset_no_pkg_branch (env : RtxEnv) (st : AssetDataManagerState) (filename : Str)
    (h1 : ¬ isDdsFile filename = false)
    (h2 : ¬ (env.usePartialDdsLoader ∧ env.ddsLoadOk filename = true))
    (h3 : ¬ (env.rtxIoEnabled ∧ st.packageSets ≠ [])) :
    findAsset env st filename =
      if env.gliLoadOk filename then FindOutcome.found (.gliTexture filename)
      else FindOutcome.nullResult := by
  unfold findAsset findAssetFull
  rw [if_neg h1, if_neg h2, if_neg h3]
  by_cases hg : env.gliLoadOk filename <;> simp [hg]

theorem findAssetFull_probe_inv (env : RtxEnv) (st : AssetDataManagerState)
    (filename p r : Str)
    (h : Attempt.pkgProbe p r ∈ (findAssetFull env st filename).2) :
    Attempt.pkgProbe p r ∈
      (searchPriorities env filename (toLowerStr (env.abspath filename))
        st.packageSets.reverse).2 := by
  by_cases h1 : isDdsFile filename = false
  · rw [findAsset_gate env st filename h1] at h
    simp at h
  · by_cases h2 : env.usePartialDdsLoader ∧ env.ddsLoadOk filename = true
    · rw [findAsset_dds_hit env st filename h1 h2] at h
      simp at h
    · by_cases h3 : env.rtxIoEnabled ∧ st.packageSets ≠ []
      · rcases hsp : searchPriorities env filename (toLowerStr (env.abspath filename))
          st.packageSets.reverse with ⟨r1, log⟩
        unfold findAssetFull at h
        rw [if_neg h1, if_neg h2, if_pos h3, hsp] at h
        show Attempt.pkgProbe p r ∈ log
        cases r1 with
        | some out =>
          by_cases hu : env.usePartialDdsLoader = true
          · simp [hu] at h
            exact h
          · simp [hu] at h
            exact h
        | none =>
          by_cases hu : env.usePartialDdsLoader = true
          · by_cases hg : env.gliLoadOk filename = true
            · simp [hu, hg] at h
              exact h
            · simp [hu, hg] at h
              exact h
          · by_cases hg : env.gliLoadOk filename = true
            · simp [hu, hg] at h
              exact h
            · simp [hu, hg] at h
              exact h
      · unfold findAssetFull at h
        rw [if_neg h1, if_neg h2, if_neg h3] at h
        by_cases hu : env.usePartialDdsLoader = true
        · by_cases hg : env.gliLoadOk filename = true
          · simp [hu, hg] at h
          · simp [hu, hg] at h
        · by_cases hg : env.gliLoadOk filename = true
          · simp [hu, hg] at h
          · simp [hu, hg] at h

theorem findAsset_thrown_inv (env : RtxEnv) (st : AssetDataManagerState) (filename : Str)
    (h : findAsset env st filename = .thrown) :
    (searchPriorities env filename (toLowerStr (env.abspath filename))
      st.packageSets.reverse).1 = some .thrown := by
  by_cases h1 : isDdsFile filename = false
  · have hg := findAsset_gate env st filename h1
    unfold findAsset at h
    rw [hg] at h
    exact absurd h (by simp)
  · by_cases h2 : env.usePartialDdsLoader ∧ env.ddsLoadOk filename = true
    · have hd := findAsset_dds_hit env st filename h1 h2
      unfold findAsset at h
      rw [hd] at h
      exact absurd h (by simp)
    · by_cases h3 : env.rtxIoEnabled ∧ st.packageSets ≠ []
      · rw [findAsset_pkg_branch env st filename h1 h2 h3] at h
        rcases hsp : (searchPriorities env filename (toLowerStr (env.abspath filename))
          st.packageSets.reverse).1 with _ | out
        · rw [hsp] at h
          by_cases hg : env.gliLoadOk filename = true <;> simp [hg] at h
        · rw [hsp] at h
          simp at h
          rw [h]
      · rw [findAsset_no_pkg_branch env st filename h1 h2 h3] at h
        by_cases hg : env.gliLoadOk filename = true <;> simp [hg] at h

/-- C10: the package lookup key is the suffix of the *original* (un-lowered)
filename starting at the matched normalized base path's length — every
probed relative path equals `filename.drop base.length` for a matched base,
preserving the caller's casing and separators; the substring is in range
exactly when the original filename is at least as long as the base (so the
`substr` call cannot throw when `absolute()` leaves the filename's length
unchanged, as for an absolute filename with preferred separators). -/
theorem c10_package_key_on_original_filename :
    (∀ (s : Str) (pos : Nat), (substrFrom s pos).isSome = true ↔ pos ≤ s.length) ∧
    (∀ (s : Str) (pos : Nat) (r : Str), substrFrom s pos = some r → s = s.take pos ++ r) ∧
    (∀ (env : RtxEnv) (st : AssetDataManagerState) (filename p r : Str),
      Attempt.pkgProbe p r ∈ (findAssetFull env st filename).2 →
      ∃ b ∈ matchedBases st (toLowerStr (env.abspath filename)),
        r = filename.drop b.length ∧ b.length ≤ filename.length) ∧
    (∀ (st : AssetDataManagerState) (fl b : Str), b ∈ matchedBases st fl →
      b.length < fl.length ∧ b.isPrefixOf fl = true) ∧
    (∀ (env : RtxEnv) (st : AssetDataManagerState) (filename : Str),
      (env.abspath filename).length = filename.length →
      findAsset env st filename ≠ .thrown) := by
  refine ⟨?_, ?_, ?_, ?_, ?_⟩
  · intro s pos
    unfold substrFrom
    by_cases hh : pos ≤ s.length <;> simp [hh]
  · intro s pos r hr
    unfold substrFrom at hr
    split_ifs at hr with hh
    rw [← Option.some.inj hr]
    exact (List.take_append_drop pos s).symm
  · intro env st filename p r h
    have hmem := findAssetFull_probe_inv env st filename p r h
    rcases searchPriorities_log_mem env filename _ st.packageSets.reverse p r hmem with
      ⟨pr, hpr, ent, hent, hm, hr, hle⟩
    exact ⟨ent.1,
      mem_matchedBases_intro st _ pr ent hpr (List.mem_reverse.mp hent) hm, hr, hle⟩
  · intro st fl b hb
    rcases mem_matchedBases_elim st fl b hb with ⟨pr, hpr, ent, hent, heq, hm⟩
    rw [← heq]
    exact hm
  · intro env st filename hlen h
    have hsp := findAsset_thrown_inv env st filename h
    rcases searchPriorities_thrown env filename _ st.packageSets.reverse hsp with
      ⟨pr, hpr, ent, hent, hm, hgt⟩
    have hfl : (toLowerStr (env.abspath filename)).length = filename.length := by
      unfold toLowerStr
      rw [List.length_map]
      exact hlen
    have := hm.1
    omega

/-- C10 witness: on the concrete absolute filename the substring is in
range and the resolution cannot throw. -/
theorem c10_package_key_on_original_filename_witness :
    ((substrFrom exFile 5).isSome = true) ∧
    findAsset exEnv exSt exFile ≠ FindOutcome.thrown := by
  constructor
  · exact (c10_package_key_on_original_filename.1 exFile 5).mpr (by decide)
  · exact c10_package_key_on_original_filename.2.2.2.2 exEnv exSt exFile (by decide)

/-- C1: `findAsset` rejects non-`.dds` filenames with a null result and no
source probed; with the partial DDS loader enabled and succeeding it
returns that instance immediately (only the DDS load attempted); otherwise,
with RTX IO on and a non-empty package-set registry, the result is the
first hit over the candidate packages enumerated priorities
highest-to-lowest, most-recently-added matching path first, packages in
reverse name order (for states built by `addSearchPath`: candidate
priorities are non-increasing, package sets are sorted so their reversal is
strictly descending, and a newly added path's entry is appended so the
reversed iteration sees it first); when the package tier misses or is
disabled, the GLI fallback decides between a found asset and null. -/
theorem c1_findAsset_resolution (env : RtxEnv) (st : AssetDataManagerState)
    (filename : Str) :
    (isDdsFile filename = false → findAssetFull env st filename = (.nullResult, [])) ∧
    (isDdsFile filename ≠ false →
      env.usePartialDdsLoader = true → env.ddsLoadOk filename = true →
      findAssetFull env st filename = (.found (.ddsTexture filename), [.ddsLoad filename])) ∧
    (isDdsFile filename ≠ false →
      ¬ (env.usePartialDdsLoader ∧ env.ddsLoadOk filename = true) →
      env.rtxIoEnabled = true → st.packageSets ≠ [] →
      (∀ b ∈ matchedBases st (toLowerStr (env.abspath filename)),
        b.length ≤ filename.length) →
      (∀ pi, firstPackageHit env filename
          (pkgCandidates st (toLowerStr (env.abspath filename))) = some pi →
        findAsset env st filename = .found (.packaged pi.1 pi.2)) ∧
      (firstPackageHit env filename
          (pkgCandidates st (toLowerStr (env.abspath filename))) = none →
        findAsset env st filename =
          if env.gliLoadOk filename then FindOutcome.found (.gliTexture filename)
          else FindOutcome.nullResult)) ∧
    (isDdsFile filename ≠ false →
      ¬ (env.usePartialDdsLoader ∧ env.ddsLoadOk filename = true) →
      ¬ (env.rtxIoEnabled ∧ st.packageSets ≠ []) →
      findAsset env st filename =
        if env.gliLoadOk filename then FindOutcome.found (.gliTexture filename)
        else FindOutcome.nullResult) ∧
    (stateInv st →
      ((pkgCandidates st (toLowerStr (env.abspath filename))).map (fun c => c.1)).Pairwise
          (fun a b => b ≤ a) ∧
      (∀ pr ∈ st.packageSets, ∀ ent ∈ pr.2,
        (ent.2.reverse).Pairwise (fun a b => strLtB b a = true)) ∧
      (∀ priority path, stateInv (addSearchPath env st priority path))) ∧
    (∀ priority path,
      (st.packageSets.map Prod.fst).Pairwise (· < ·) →
      pathRegistered st (normalizeSearchPath env path) = false →
      env.rtxIoEnabled = true →
      lookupSlot (addSearchPath env st priority path).packageSets priority
        = lookupSlot st.packageSets priority
            ++ [(normalizeSearchPath env path, scanDir env path)]) := by
  refine ⟨?_, ?_, ?_, ?_, ?_, ?_⟩
  · intro h1
    exact findAsset_gate env st filename h1
  · intro h1 h2a h2b
    exact findAsset_dds_hit env st filename h1 ⟨h2a, h2b⟩
  · intro hd hnd hio hne Hsub
    have hcond : ∀ pr ∈ st.packageSets.reverse, ∀ ent ∈ pr.2,
        ent.1.length < (toLowerStr (env.abspath filename)).length ∧
          ent.1.isPrefixOf (toLowerStr (env.abspath filename)) = true →
        ent.1.length ≤ filename.length :=
      fun pr hpr ent hent hm =>
        Hsub ent.1 (mem_matchedBases_intro st _ pr ent hpr hent hm)
    have hfst := searchPriorities_fst env filename (toLowerStr (env.abspath filename))
      st.packageSets.reverse hcond
    have hbr := findAsset_pkg_branch env st filename hd hnd ⟨hio, hne⟩
    constructor
    · intro pi hpi
      have hsp1 : (searchPriorities env filename (toLowerStr (env.abspath filename))
          st.packageSets.reverse).1
          = some (.found (.packaged pi.1 pi.2)) := by
        rw [hfst]
        have hx : ((st.packageSets.reverse).flatMap
            (fun pr => (pr.2.reverse).flatMap
              (entryCandidates (toLowerStr (env.abspath filename)) pr.1))).findSome?
            (candidateHit env filename) = some pi := hpi
        rw [hx]
        rfl
      rw [hbr, hsp1]
    · intro hpi
      have hsp1 : (searchPriorities env filename (toLowerStr (env.abspath filename))
          st.packageSets.reverse).1 = none := by
        rw [hfst]
        have hx : ((st.packageSets.reverse).flatMap
            (fun pr => (pr.2.reverse).flatMap
              (entryCandidates (toLowerStr (env.abspath filename)) pr.1))).findSome?
            (candidateHit env filename) = none := hpi
        rw [hx]
        rfl
      rw [hbr, hsp1]
  · intro hd hnd h3
    exact findAsset_no_pkg_branch env st filename hd hnd h3
  · intro hinv
    refine ⟨pkgCandidates_priorities st _ hinv.1, ?_, ?_⟩
    · intro pr hpr ent hent
      exact List.pairwise_reverse.mpr (hinv.2 pr hpr ent hent)
    · intro priority path
      exact stateInv_addSearchPath env st hinv priority path
  · intro priority path hkeys hreg hio
    exact addSearchPath_recency env st priority path hkeys hreg hio

/-- C1 witness: the concrete two-priority state resolves `exFile` to the
reverse-lexicographically first package of the matching priority-1 path,
and a non-DDS filename yields a null result with no source probed. -/
theorem c1_findAsset_resolution_witness :
    findAsset exEnv exSt exFile = .found (.packaged exPkgA2 7) ∧
    findAssetFull exEnv exSt ['b', '.', 'p', 'n', 'g'] = (.nullResult, []) := by
  constructor
  · exact ((c1_findAsset_resolution exEnv exSt exFile).2.2.1 (by decide) (by decide)
      (by decide) (by decide) (by decide)).1 (exPkgA2, 7) (by decide)
  · exact (c1_findAsset_resolution exEnv exSt ['b', '.', 'p', 'n', 'g']).1 (by decide)
